import Mathlib

/-!
# Order store of the order microservice

A shallow embedding of `src/models/Order.js`: the module-level `orders` array and
the static methods of class `Order` that read and mutate it.

JavaScript values are carried by the inductive type `JSValue`; an order is a
JavaScript object, that is a list of named properties.  The three sources of
nondeterminism of the module are made explicit in `Env`: the identifiers handed
out by `uuidv4()`, the successive readings of the clock
(`new Date().toISOString()`), and the time value the platform assigns to
`new Date(v)`.
-/

/-! ## JavaScript values -/

/-- JavaScript values.  `num n` is the integer-valued Number `n`; it stands for a
Number when `n` is exactly representable as a double, which every integer up to
`2^53` in magnitude is (see `roundDouble`).  `real r` is any other Number except
`NaN` (a fraction such as `999.99`, or an infinity), identified by the text
`Number.prototype.toString` prints for it; `nan` is `NaN`. -/
inductive JSValue where
  | undefined
  | null
  | bool (b : Bool)
  | num (n : Int)
  | nan
  | real (digits : String)
  | str (s : String)
  | arr (elems : List JSValue)
  | obj (props : List (String × JSValue))

/-- A JavaScript object: its own properties, in insertion order. -/
abbrev Obj := List (String × JSValue)

/-! ## Integer Numbers: rounding and printing -/

/-- The number of binary digits of `m`. -/
def bitLength (m : Nat) : Nat := (Nat.toDigits 2 m).length

/-- The Number nearest to the integer `m`: `m` rounded to 53 significant bits, a tie
going to the even significand.  Integers below `2^53` are Numbers themselves.  A
result of more than 1024 binary digits (`2^1024` or more) stands for `Infinity`. -/
def roundDouble (m : Nat) : Nat :=
  if m < 2 ^ 53 then m
  else
    let sh := bitLength m - 53
    let q := m / 2 ^ sh
    let r := m % 2 ^ sh
    if r > 2 ^ (sh - 1) ∨ (r = 2 ^ (sh - 1) ∧ q % 2 = 1) then (q + 1) * 2 ^ sh else q * 2 ^ sh

/-- The search of `Number::toString` for the fewest significant digits that still
denote the Number `x`: for the power `10 ^ e`, from high to low, the two multiples
of it around `x` are tried, the nearer one first (on a tie the one with the even
factor); with no power left the integer `x` itself is taken. -/
def shortestFrom (x : Nat) : Nat → Nat
  | 0 => x
  | e + 1 =>
    let lo := x / 10 ^ (e + 1) * 10 ^ (e + 1)
    let hi := lo + 10 ^ (e + 1)
    let loFirst := x - lo < hi - x ∨ (x - lo = hi - x ∧ x / 10 ^ (e + 1) % 2 = 0)
    if roundDouble lo = x ∧ (loFirst ∨ roundDouble hi ≠ x) then lo
    else if roundDouble hi = x then hi
    else shortestFrom x e

/-- The integer with the fewest significant digits that rounds to the Number `x`. -/
def shortestDecimal (x : Nat) : Nat :=
  shortestFrom x ((Nat.toDigits 10 x).length - 1)

/-- The exponent form `d.ddde+XX` of the positive integer `m`: its significant digits,
a point after the first when there are more, and its decimal exponent. -/
def exponentForm (m : Nat) : String :=
  let ds := Nat.toDigits 10 m
  let e := "e+" ++ toString (ds.length - 1)
  match (ds.reverse.dropWhile (fun c => c == '0')).reverse with
  | [] => "0"
  | [d] => String.mk [d] ++ e
  | d :: rest => String.mk (d :: '.' :: rest) ++ e

/-- The text `Number::toString` prints for the non-negative integer Number `x`: its
shortest digits, written out as a plain integer below `10^21` and in exponent form
from there on (`String(1e21)` is `1e+21`). -/
def numberDigits (x : Nat) : String :=
  if shortestDecimal x < 10 ^ 21 then toString (shortestDecimal x)
  else exponentForm (shortestDecimal x)

namespace JSValue

mutual
/-- The abstract operation `ToString`.  An array prints its elements separated by
commas (`Array.prototype.join`), an object prints as `[object Object]`. -/
def toStr : JSValue → String
  | undefined => "undefined"
  | null => "null"
  | bool true => "true"
  | bool false => "false"
  | num (Int.ofNat x) => numberDigits x
  | num (Int.negSucc x) => "-" ++ numberDigits (x + 1)
  | nan => "NaN"
  | real r => r
  | str s => s
  | arr xs => joinElems xs
  | obj _ => "[object Object]"
termination_by structural v => v
/-- The body of `Array.prototype.join(",")`: `undefined` and `null` elements print
as the empty string. -/
def joinElems : List JSValue → String
  | [] => ""
  | x :: r =>
    (match x with
      | undefined => ""
      | null => ""
      | v => toStr v) ++ (match r with | [] => "" | _ :: _ => ",") ++ joinElems r
termination_by structural l => l
end

/-- The abstract operation `ToBoolean` (truthiness). -/
def truthy : JSValue → Bool
  | undefined => false
  | null => false
  | bool b => b
  | num n => n != 0
  | nan => false
  | real _ => true
  | str s => s != ""
  | arr _ => true
  | obj _ => true

/-- Strict equality `===`.  Primitives are compared by type and value and `NaN`
equals nothing.  Objects and arrays are equal only to themselves (the same
reference); the values met here are parsed from separate inputs, so two of them
are never the same reference. -/
def strictEq : JSValue → JSValue → Bool
  | undefined, undefined => true
  | null, null => true
  | bool a, bool b => a == b
  | num a, num b => a == b
  | real a, real b => a == b
  | str a, str b => a == b
  | _, _ => false

/-- The operator `a || b`. -/
def or (a b : JSValue) : JSValue := if a.truthy then a else b

end JSValue

/-! ## `parseInt` -/

/-- White space and line terminators skipped by `parseInt` (`StrWhiteSpaceChar`). -/
def isStrWhiteSpaceChar (c : Char) : Bool :=
  let n := c.toNat
  n == 0x9 || n == 0xA || n == 0xB || n == 0xC || n == 0xD || n == 0x20 || n == 0xA0
    || n == 0x1680 || (0x2000 ≤ n && n ≤ 0x200A) || n == 0x2028 || n == 0x2029
    || n == 0x202F || n == 0x205F || n == 0x3000 || n == 0xFEFF

/-- The value of a character as a digit: `0`-`9`, then letters `a`-`z` / `A`-`Z`
for 10 to 35. -/
def digitValue (c : Char) : Option Nat :=
  let n := c.toNat
  if 48 ≤ n ∧ n ≤ 57 then some (n - 48)
  else if 97 ≤ n ∧ n ≤ 122 then some (n - 87)
  else if 65 ≤ n ∧ n ≤ 90 then some (n - 55)
  else none

/-- Reads the longest prefix of radix-`R` digits; `acc` is the value read so far,
`none` while no digit has been read. -/
def parseDigits (R : Nat) : List Char → Option Nat → Option Nat
  | [], acc => acc
  | c :: cs, acc =>
    match digitValue c with
    | some d => if d < R then parseDigits R cs (some (acc.getD 0 * R + d)) else acc
    | none => acc

/-- The sign read by `parseInt`: `-1` after a leading `-`, else `1`; a leading `-` or
`+` is removed. -/
def parseSign : List Char → Int × List Char
  | '-' :: r => (-1, r)
  | '+' :: r => (1, r)
  | s => (1, s)

/-- The radix `parseInt` uses when none is given: 16 after a prefix `0x` or `0X`,
which is removed, else 10. -/
def parseRadix : List Char → Nat × List Char
  | '0' :: 'x' :: r => (16, r)
  | '0' :: 'X' :: r => (16, r)
  | s => (10, s)

/-- The global function `parseInt(v)` without a radix argument: `ToString`, skip
leading white space, an optional sign, an optional `0x` / `0X` prefix, then the
longest run of digits of the radix; `NaN` when there is none.  The integer read is
rounded to the nearest Number, `Infinity` when it is too large.  The result `-0` is
carried as `0`. -/
def parseInt (v : JSValue) : JSValue :=
  let signed := parseSign (v.toStr.toList.dropWhile isStrWhiteSpaceChar)
  let prefixed := parseRadix signed.2
  match parseDigits prefixed.1 prefixed.2 none with
  | none => JSValue.nan
  | some m =>
    if bitLength (roundDouble m) ≤ 1024 then JSValue.num (signed.1 * roundDouble m)
    else JSValue.real (if signed.1 < 0 then "-Infinity" else "Infinity")

/-! ## Objects -/

namespace Obj

/-- Property read `o[k]`: `undefined` when `o` has no own property `k`. -/
def get (o : Obj) (k : String) : JSValue :=
  match o.lookup k with
  | some v => v
  | none => JSValue.undefined

/-- Names of the own properties of `o`. -/
def keys (o : Obj) : List String := o.map Prod.fst

/-- Property write `o[k] = v`: an existing property keeps its place, a new one is
added at the end. -/
def set : Obj → String → JSValue → Obj
  | [], k, v => [(k, v)]
  | (k', v') :: rest, k, v => if k' = k then (k, v) :: rest else (k', v') :: set rest k v

/-- Object spread `{...target, ...src}` onto an object under construction: every own
property of `src` is read and written onto `target`. -/
def spread (target src : Obj) : Obj :=
  (keys src).foldl (fun acc k => set acc k (get src k)) target

end Obj

/-! ## `Array.prototype.sort` -/

/-- The comparison `SortCompare` that `Array.prototype.sort` derives from a
comparator: the comparator's result as a number, `NaN` (here `none`) counting as
`+0`. -/
def sortCompare {α : Type} (comparefn : α → α → Option Int) (x y : α) : Int :=
  (comparefn x y).getD 0

/-- Inserts `x` before the first element it does not sort after. -/
def sortInsert {α : Type} (comparefn : α → α → Option Int) (x : α) : List α → List α
  | [] => [x]
  | y :: ys =>
    if sortCompare comparefn x y ≤ 0 then x :: y :: ys
    else y :: sortInsert comparefn x ys

/-- The array left by `Array.prototype.sort(comparefn)`.  The sort is stable
(ECMAScript 2019), and for a consistent comparator the result of a stable sort
is unique: it is the one this insertion sort computes, in which elements that
compare equal keep their relative order. -/
def arraySort {α : Type} (comparefn : α → α → Option Int) : List α → List α
  | [] => []
  | x :: xs => sortInsert comparefn x (arraySort comparefn xs)

/-! ## The environment and the module state -/

/-- What the module takes from its platform. -/
structure Env where
  /-- The `k`-th identifier returned by `uuidv4()`. -/
  uuidv4 : Nat → String
  /-- The `k`-th reading of the clock, `new Date().toISOString()`. -/
  now : Nat → String
  /-- The time value of `new Date(v)` in milliseconds, `none` for an invalid date. -/
  timeValue : JSValue → Option Int

/-- The state of the module: the array `orders`, and how many identifiers and clock
readings have been consumed so far. -/
structure State where
  orders : List Obj
  uuids : Nat
  ticks : Nat

/-- The state when the module is loaded, before `initSampleData` runs:
`let orders = []`. -/
def State.empty : State := ⟨[], 0, 0⟩

namespace Order

/-- The comparator of `findAll`:
`(a, b) => new Date(b.createdAt) - new Date(a.createdAt)`; the difference is `NaN`
when either date is invalid. -/
def byCreatedAtDesc (env : Env) (a b : Obj) : Option Int :=
  match env.timeValue (b.get "createdAt"), env.timeValue (a.get "createdAt") with
  | some tb, some ta => some (tb - ta)
  | _, _ => none

/-- `Order.findAll()`: sorts `orders` in place and returns that array. -/
def findAll (env : Env) (st : State) : State × List Obj :=
  let sorted := arraySort (byCreatedAtDesc env) st.orders
  ({ st with orders := sorted }, sorted)

/-- `Order.findById(id)`: `orders.find(order => order.id === id)`; `none` stands for
the `undefined` that `find` returns when no element matches. -/
def findById (st : State) (id : JSValue) : Option Obj :=
  st.orders.find? (fun order => (order.get "id").strictEq id)

/-- `Order.findByUserId(userId)`:
`orders.filter(order => order.userId === parseInt(userId))`. -/
def findByUserId (st : State) (userId : JSValue) : List Obj :=
  st.orders.filter (fun order => (order.get "userId").strictEq (parseInt userId))

/-- The object literal built by `Order.create(orderData)`; `id` is the identifier
obtained from `uuidv4()`, `t₁` and `t₂` the two clock readings. -/
def newOrder (id t₁ t₂ : String) (orderData : Obj) : Obj :=
  [ ("id", JSValue.str id),
    ("userId", orderData.get "userId"),
    ("items", orderData.get "items"),
    ("totalAmount", orderData.get "totalAmount"),
    ("status", (orderData.get "status").or (JSValue.str "pending")),
    ("shippingAddress", (orderData.get "shippingAddress").or JSValue.null),
    ("createdAt", JSValue.str t₁),
    ("updatedAt", JSValue.str t₂) ]

/-- `Order.create(orderData)`: one call of `uuidv4()`, two readings of the clock,
`orders.push(newOrder)`; returns the new order. -/
def create (env : Env) (st : State) (orderData : Obj) : State × Obj :=
  let o := newOrder (env.uuidv4 st.uuids) (env.now st.ticks) (env.now (st.ticks + 1)) orderData
  ({ orders := st.orders ++ [o], uuids := st.uuids + 1, ticks := st.ticks + 2 }, o)

/-- `orders.findIndex(order => order.id === id)`; `none` stands for `-1`. -/
def findIndex (st : State) (id : JSValue) : Option Nat :=
  st.orders.findIdx? (fun order => (order.get "id").strictEq id)

/-- The object `{...order, ...orderData, updatedAt: t}` that `update` stores. -/
def merged (order orderData : Obj) (t : String) : Obj :=
  ((Obj.spread [] order).spread orderData).set "updatedAt" (JSValue.str t)

/-- `Order.update(id, orderData)`: `null` (here `none`) when no order has the id;
otherwise the order at the index found is replaced by the merged object, which is
returned.  The clock is read only in the second case. -/
def update (env : Env) (st : State) (id : JSValue) (orderData : Obj) : State × Option Obj :=
  match findIndex st id with
  | none => (st, none)
  | some index =>
    let o := merged (st.orders.getD index []) orderData (env.now st.ticks)
    ({ st with orders := st.orders.set index o, ticks := st.ticks + 1 }, some o)

/-- `Order.delete(id)`: `false` when no order has the id; otherwise
`orders.splice(index, 1)` and `true`. -/
def delete (st : State) (id : JSValue) : State × Bool :=
  match findIndex st id with
  | none => (st, false)
  | some index => ({ st with orders := st.orders.eraseIdx index }, true)

/-- `Order.updateStatus(id, status)`: `null` (here `none`) when no order has the id;
otherwise the properties `status` and `updatedAt` of the order at the index found
are assigned, and that order is returned. -/
def updateStatus (env : Env) (st : State) (id : JSValue) (status : JSValue) :
    State × Option Obj :=
  match findIndex st id with
  | none => (st, none)
  | some index =>
    let o := ((st.orders.getD index []).set "status" status).set "updatedAt"
      (JSValue.str (env.now st.ticks))
    ({ st with orders := st.orders.set index o, ticks := st.ticks + 1 }, some o)

end Order

/-! ## Sequences of calls -/

/-- A call of one of the store operations, with the arguments the caller passes. -/
inductive Call where
  | findAll
  | findById (id : JSValue)
  | findByUserId (userId : JSValue)
  | create (orderData : Obj)
  | update (id : JSValue) (orderData : Obj)
  | delete (id : JSValue)
  | updateStatus (id : JSValue) (status : JSValue)

/-- The state after one call. -/
def step (env : Env) (st : State) : Call → State
  | .findAll => (Order.findAll env st).1
  | .findById _ => st
  | .findByUserId _ => st
  | .create orderData => (Order.create env st orderData).1
  | .update id orderData => (Order.update env st id orderData).1
  | .delete id => (Order.delete st id).1
  | .updateStatus id status => (Order.updateStatus env st id status).1

/-- The state reached from the empty store by a sequence of calls. -/
def run (env : Env) (calls : List Call) : State :=
  calls.foldl (step env) State.empty

/-! ## A reference platform

A concrete `Env`, used to evaluate the operations on explicit inputs. -/

/-- The value of a decimal digit character, `none` for any other character. -/
def decimalDigit (c : Char) : Option Int :=
  if 48 ≤ c.toNat ∧ c.toNat ≤ 57 then some (c.toNat - 48 : Nat) else none

/-- The number written by a list of decimal digit characters. -/
def decimalField : List Char → Option Int
  | [] => some 0
  | c :: cs =>
    match decimalDigit c, decimalField cs with
    | some d, some r => some (d * 10 ^ cs.length + r)
    | _, _ => none

/-- Days from 1970-01-01 to the given day of the proleptic Gregorian calendar. -/
def daysFromCivil (y m d : Int) : Int :=
  let y' := if m ≤ 2 then y - 1 else y
  let era := y' / 400
  let yoe := y' - era * 400
  let doy := (153 * (if m > 2 then m - 3 else m + 9) + 2) / 5 + d - 1
  let doe := yoe * 365 + yoe / 4 - yoe / 100 + doy
  era * 146097 + doe - 719468

/-- The number of days of month `m` of year `y`. -/
def daysInMonth (y m : Int) : Int :=
  if m = 2 then (if y % 4 = 0 ∧ (y % 100 ≠ 0 ∨ y % 400 = 0) then 29 else 28)
  else if m = 4 ∨ m = 6 ∨ m = 9 ∨ m = 11 then 30 else 31

/-- The time value of a string in the format `toISOString` writes,
`YYYY-MM-DDTHH:mm:ss.sssZ`. -/
def isoTime (s : String) : Option Int :=
  match s.toList with
  | [y1, y2, y3, y4, '-', m1, m2, '-', d1, d2, 'T', h1, h2, ':', n1, n2, ':', s1, s2, '.',
      f1, f2, f3, 'Z'] =>
    match decimalField [y1, y2, y3, y4], decimalField [m1, m2], decimalField [d1, d2],
      decimalField [h1, h2], decimalField [n1, n2], decimalField [s1, s2],
      decimalField [f1, f2, f3] with
    | some y, some m, some d, some h, some n, some sec, some ms =>
      if 1 ≤ m ∧ m ≤ 12 ∧ 1 ≤ d ∧ d ≤ daysInMonth y m ∧ h ≤ 23 ∧ n ≤ 59 ∧ sec ≤ 59 then
        some ((((daysFromCivil y m d * 24 + h) * 60 + n) * 60 + sec) * 1000 + ms)
      else none
    | _, _, _, _, _, _, _ => none
  | _ => none

/-- The time value of `new Date(v)` on the reference platform, for the values used
in the examples: a string in `toISOString` format has the time it denotes, an
integer number within the range of time values is its own time value; every other
value is left without one. -/
def refTimeValue : JSValue → Option Int
  | .str s => isoTime s
  | .num n => if n.natAbs ≤ 8640000000000000 then some n else none
  | _ => none

/-- A reference platform whose clock advances by one millisecond between any two of
its first ten readings and then stands still. -/
def refEnv : Env where
  uuidv4 k := "order-" ++ toString k
  now k := "2024-01-01T00:00:00.00" ++ toString (min k 9) ++ "Z"
  timeValue := refTimeValue

/-- Order data as a client sends them: one line item, no `status`, no
`shippingAddress`. -/
def sampleData (userId : Int) : Obj :=
  [ ("userId", .num userId),
    ("items", .arr [.obj [("productId", .str "P1"), ("productName", .str "Widget"),
      ("quantity", .num 2), ("price", .num 10)]]),
    ("totalAmount", .num 20) ]

/-- The store after two orders of user 1 were created on the reference platform. -/
def twoOrders : State :=
  run refEnv [.create (sampleData 1), .create (sampleData 1)]

/-- Order data that supply a `status`, the empty string. -/
def emptyStatusData : Obj := sampleData 1 ++ [("status", .str "")]

/-- The store after one order of user 1 was created on the reference platform. -/
def oneOrder : State := run refEnv [.create (sampleData 1)]

/-- A patch that names `updatedAt`. -/
def updatedAtPatch : Obj := [("status", .str "shipped"), ("updatedAt", .str "1999-12-31T00:00:00.000Z")]

/-! ## Properties of orders and stores used in the statements -/

namespace Order

/-- The order `o` carries a valid timestamp string in `createdAt`. -/
def ValidCreatedAt (env : Env) (o : Obj) : Prop :=
  ∃ s t, o.get "createdAt" = JSValue.str s ∧ env.timeValue (JSValue.str s) = some t

/-- The timestamp `a` is a valid date that is not later than the valid date `b`. -/
def TimeLE (env : Env) (a b : JSValue) : Prop :=
  ∃ ta tb, env.timeValue a = some ta ∧ env.timeValue b = some tb ∧ ta ≤ tb

end Order

/-- The names of the fields that the patch of a call names; only `Order.update` takes
a patch. -/
def Call.patchKeys : Call → List String
  | .update _ orderData => orderData.keys
  | _ => []

/-- What a call does to the collection, `before` and `after` being the array `orders`
around it: `create` appends one order; `update` and `updateStatus` keep every
position, the order `o'` left at a position being related by `R` to the order `o`
that was there; `delete` removes at most one position; `findAll` rearranges; the
other reads change nothing. -/
def Frame (R : Obj → Obj → Prop) : Call → List Obj → List Obj → Prop
  | .create _, before, after => ∃ o, after = before ++ [o]
  | .update _ _, before, after => List.Forall₂ R before after
  | .updateStatus _ _, before, after => List.Forall₂ R before after
  | .delete _, before, after => ∃ i, after = before.eraseIdx i
  | .findAll, before, after => after.Perm before
  | .findById _, before, after => after = before
  | .findByUserId _, before, after => after = before

namespace Order

/-- Every stored order carries in `createdAt` and in `updatedAt` two readings of the
clock taken so far, the one of `createdAt` not after the one of `updatedAt`. -/
def Stamped (env : Env) (ticks : Nat) (o : Obj) : Prop :=
  ∃ i j, i ≤ j ∧ j < ticks ∧ o.get "createdAt" = JSValue.str (env.now i) ∧
    o.get "updatedAt" = JSValue.str (env.now j)

/-- The order carries in `updatedAt` a reading of the clock taken so far. -/
def UpdatedStamped (env : Env) (ticks : Nat) (o : Obj) : Prop :=
  ∃ j, j < ticks ∧ o.get "updatedAt" = JSValue.str (env.now j)

/-- The id of the order is one of the identifiers generated so far. -/
def Identified (env : Env) (uuids : Nat) (o : Obj) : Prop :=
  ∃ k, k < uuids ∧ o.get "id" = JSValue.str (env.uuidv4 k)

end Order

/-- A patch that names `createdAt`. -/
def createdAtPatch : Obj := [("createdAt", .str "2030-01-01T00:00:00.000Z")]

/-- A patch that names `id`. -/
def idPatch : Obj := [("id", .str "order-0")]

/-- A patch that names `status` only. -/
def statusPatch : Obj := [("status", .str "shipped")]

/-! ## Seeding -/

namespace Order

/-- The shipping address of both sample orders. -/
def sampleAddress : JSValue :=
  .obj [("street", .str "123 Main St"), ("city", .str "San Francisco"), ("state", .str "CA"),
    ("zipCode", .str "94102"), ("country", .str "USA")]

/-- The array `sampleOrders` of `initSampleData`. -/
def sampleOrders : List Obj :=
  [ [ ("userId", .num 1),
      ("items", .arr [.obj [("productId", .str "PROD-001"), ("productName", .str "Laptop"),
        ("quantity", .num 1), ("price", .real "999.99")]]),
      ("totalAmount", .real "999.99"),
      ("status", .str "delivered"),
      ("shippingAddress", sampleAddress) ],
    [ ("userId", .num 1),
      ("items", .arr [
        .obj [("productId", .str "PROD-002"), ("productName", .str "Mouse"),
          ("quantity", .num 2), ("price", .real "29.99")],
        .obj [("productId", .str "PROD-003"), ("productName", .str "Keyboard"),
          ("quantity", .num 1), ("price", .real "79.99")]]),
      ("totalAmount", .real "139.97"),
      ("status", .str "processing"),
      ("shippingAddress", sampleAddress) ] ]

/-- `Order.initSampleData()`: when `orders.length === 0`, every element of
`sampleOrders` is passed to `create`, in order; otherwise nothing is done.  The
message written to the console is left out. -/
def initSampleData (env : Env) (st : State) : State :=
  if st.orders.length = 0 then
    sampleOrders.foldl (fun s order => (create env s order).1) st
  else st

end Order

/-! ## The routes of `routes/orderRoutes.js`

A handler receives the path parameter `id` (a string) and the parsed request body
(an object) and answers with a status code and a JSON body.  No store operation
raises, so the `catch` branch of a handler, which answers 500, is never entered. -/

/-- The response of a handler: `res.status(code).json(body)`; `res.json(body)` alone
answers with status 200. -/
structure Response where
  status : Nat
  body : JSValue

namespace JSValue

/-- `Array.isArray(v)`. -/
def isArray : JSValue → Bool
  | arr _ => true
  | _ => false

/-- The `length` of an array. -/
def arrayLength : JSValue → Nat
  | arr xs => xs.length
  | _ => 0

/-- The value a handler holds for the result of a store operation: the order, or
the sentinel the operation returns when there is none. -/
def ofResult (sentinel : JSValue) : Option Obj → JSValue
  | some o => obj o
  | none => sentinel

end JSValue

namespace Route

/-- `router.get('/:id')`. -/
def getOrder (st : State) (id : String) : Response :=
  let order := JSValue.ofResult .undefined (Order.findById st (.str id))
  if !order.truthy then
    ⟨404, .obj [("error", .str "Order not found")]⟩
  else ⟨200, order⟩

/-- The object `{ userId, items, totalAmount, status, shippingAddress }` that
`router.post('/')` passes to `Order.create`. -/
def createArgs (body : Obj) : Obj :=
  [ ("userId", body.get "userId"),
    ("items", body.get "items"),
    ("totalAmount", body.get "totalAmount"),
    ("status", body.get "status"),
    ("shippingAddress", body.get "shippingAddress") ]

/-- `router.post('/')`: the basic validation, then `Order.create`. -/
def postOrder (env : Env) (st : State) (body : Obj) : State × Response :=
  let userId := body.get "userId"
  let items := body.get "items"
  let totalAmount := body.get "totalAmount"
  if !userId.truthy || !items.truthy || !items.isArray || items.arrayLength == 0
      || !totalAmount.truthy then
    (st, ⟨400, .obj [("error",
      .str "Missing required fields: userId, items (array), totalAmount")]⟩)
  else
    let created := Order.create env st (createArgs body)
    (created.1, ⟨201, .obj created.2⟩)

/-- `router.patch('/:id/status')`. -/
def patchStatus (env : Env) (st : State) (id : String) (body : Obj) : State × Response :=
  let status := body.get "status"
  if !status.truthy then
    (st, ⟨400, .obj [("error", .str "Status is required")]⟩)
  else
    let order := JSValue.ofResult .undefined (Order.findById st (.str id))
    if !order.truthy then
      (st, ⟨404, .obj [("error", .str "Order not found")]⟩)
    else
      let updated := Order.updateStatus env st (.str id) status
      (updated.1, ⟨200, JSValue.ofResult .null updated.2⟩)

end Route

/-- A request body that supplies the empty string as `status`. -/
def emptyStatusBody : Obj := [("status", .str "")]

/-- A request body with all three required fields present, `userId` being 0. -/
def zeroUserBody : Obj := sampleData 0

/-- The fields of a JSON body: the properties of an object, none for any other
value. -/
def JSValue.fields : JSValue → Obj
  | .obj props => props
  | _ => []
/-! ## Sorting lemmas -/

theorem sortInsert_perm {α : Type} (c : α → α → Option Int) (x : α) (l : List α) :
    (sortInsert c x l).Perm (x :: l) := by
  induction l with
  | nil => exact List.Perm.refl _
  | cons y ys ih =>
    unfold sortInsert
    split
    · exact List.Perm.refl _
    · exact (List.Perm.cons y ih).trans (List.Perm.swap x y ys)

theorem arraySort_perm {α : Type} (c : α → α → Option Int) (l : List α) :
    (arraySort c l).Perm l := by
  induction l with
  | nil => exact List.Perm.refl _
  | cons x xs ih =>
    exact (sortInsert_perm c x (arraySort c xs)).trans (List.Perm.cons x ih)

theorem mem_sortInsert {α : Type} (c : α → α → Option Int) (x y : α) (l : List α) :
    y ∈ sortInsert c x l ↔ y = x ∨ y ∈ l := by
  rw [(sortInsert_perm c x l).mem_iff, List.mem_cons]

/-- Inserting into a list sorted by a key keeps it sorted, when the comparator
agrees with the key on the elements involved. -/
theorem sortInsert_pairwise {α : Type} (c : α → α → Option Int) (key : α → Int) (x : α)
    (l : List α) (hx : ∀ y ∈ l, sortCompare c x y = key y - key x)
    (hl : l.Pairwise (fun a b => key b ≤ key a)) :
    (sortInsert c x l).Pairwise (fun a b => key b ≤ key a) := by
  induction l with
  | nil => simp [sortInsert]
  | cons y ys ih =>
    have hy := hx y (List.mem_cons_self y ys)
    have hys := List.pairwise_cons.mp hl
    unfold sortInsert
    split
    · rename_i hle
      rw [hy] at hle
      refine List.pairwise_cons.mpr ⟨?_, hl⟩
      intro b hb
      rcases List.mem_cons.mp hb with rfl | hb
      · omega
      · have := hys.1 b hb
        omega
    · rename_i hgt
      rw [hy] at hgt
      refine List.pairwise_cons.mpr ⟨?_, ih (fun z hz => hx z (List.mem_cons_of_mem y hz)) hys.2⟩
      intro b hb
      rcases (mem_sortInsert c x b ys).mp hb with rfl | hb
      · omega
      · exact hys.1 b hb

theorem arraySort_pairwise {α : Type} (c : α → α → Option Int) (key : α → Int) (l : List α)
    (h : ∀ x ∈ l, ∀ y ∈ l, sortCompare c x y = key y - key x) :
    (arraySort c l).Pairwise (fun a b => key b ≤ key a) := by
  induction l with
  | nil => simp [arraySort]
  | cons x xs ih =>
    have hxs := ih (fun a ha b hb => h a (List.mem_cons_of_mem x ha) b (List.mem_cons_of_mem x hb))
    refine sortInsert_pairwise c key x (arraySort c xs) ?_ hxs
    intro y hy
    exact h x (List.mem_cons_self x xs) y
      (List.mem_cons_of_mem x ((arraySort_perm c xs).mem_iff.mp hy))

/-- C1. On a store whose orders all carry valid timestamp strings in `createdAt`,
`Order.findAll()` returns a permutation of the stored orders in which no order is
created earlier than an order that comes after it (descending `createdAt`); on the
empty store it returns the empty list. -/
theorem findAll_perm_sorted (env : Env) (st : State)
    (hvalid : ∀ o ∈ st.orders, Order.ValidCreatedAt env o) :
    (Order.findAll env st).2.Perm st.orders ∧
    (Order.findAll env st).2.Pairwise
      (fun a b => Order.TimeLE env (b.get "createdAt") (a.get "createdAt")) ∧
    (st.orders = [] → (Order.findAll env st).2 = []) := by
  refine ⟨arraySort_perm _ _, ?_, ?_⟩
  · have key : ∀ o ∈ st.orders, ∃ t, env.timeValue (o.get "createdAt") = some t := by
      intro o ho
      obtain ⟨s, t, hs, ht⟩ := hvalid o ho
      exact ⟨t, by rw [hs, ht]⟩
    have hsorted := arraySort_pairwise (Order.byCreatedAtDesc env)
      (fun o => (env.timeValue (o.get "createdAt")).getD 0) st.orders (by
        intro x hx y hy
        obtain ⟨tx, htx⟩ := key x hx
        obtain ⟨ty, hty⟩ := key y hy
        simp [sortCompare, Order.byCreatedAtDesc, htx, hty])
    have hmem : ∀ o ∈ arraySort (Order.byCreatedAtDesc env) st.orders,
        ∃ t, env.timeValue (o.get "createdAt") = some t :=
      fun o ho => key o ((arraySort_perm _ _).mem_iff.mp ho)
    show (arraySort (Order.byCreatedAtDesc env) st.orders).Pairwise _
    refine (List.Pairwise.and_mem.mp hsorted).imp ?_
    rintro a b ⟨ha, hb, hab⟩
    obtain ⟨ta, hta⟩ := hmem a ha
    obtain ⟨tb, htb⟩ := hmem b hb
    refine ⟨tb, ta, htb, hta, ?_⟩
    simpa [hta, htb] using hab
  · intro h
    simp [Order.findAll, h, arraySort]

theorem findAll_perm_sorted_witness :
    (∀ o ∈ twoOrders.orders, Order.ValidCreatedAt refEnv o) ∧
    (Order.findAll refEnv twoOrders).2.Perm twoOrders.orders ∧
    (Order.findAll refEnv twoOrders).2.Pairwise
      (fun a b => Order.TimeLE refEnv (b.get "createdAt") (a.get "createdAt")) ∧
    (twoOrders.orders = [] → (Order.findAll refEnv twoOrders).2 = []) :=
  have h : ∀ o ∈ twoOrders.orders, Order.ValidCreatedAt refEnv o := by
    intro o ho
    have ho' : o ∈ [Order.newOrder "order-0" "2024-01-01T00:00:00.000Z"
        "2024-01-01T00:00:00.001Z" (sampleData 1),
        Order.newOrder "order-1" "2024-01-01T00:00:00.002Z" "2024-01-01T00:00:00.003Z"
        (sampleData 1)] := ho
    simp only [List.mem_cons, List.mem_singleton, List.not_mem_nil, or_false] at ho'
    rcases ho' with rfl | rfl
    · exact ⟨"2024-01-01T00:00:00.000Z", 1704067200000, rfl, rfl⟩
    · exact ⟨"2024-01-01T00:00:00.002Z", 1704067200002, rfl, rfl⟩
  ⟨h, findAll_perm_sorted refEnv twoOrders h⟩

/-! ## `parseInt` on the decimal form of an integer -/

theorem digitValue_digitChar (k : Nat) (h : k < 10) :
    digitValue (Nat.digitChar k) = some k := by
  interval_cases k <;> rfl

theorem digitChar_decimal (k : Nat) (h : k < 10) :
    48 ≤ (Nat.digitChar k).toNat ∧ (Nat.digitChar k).toNat ≤ 57 := by
  interval_cases k <;> decide

theorem parseDigits_toDigitsCore (fuel : Nat) :
    ∀ (n : Nat) (ds : List Char), n < fuel →
      parseDigits 10 (Nat.toDigitsCore 10 fuel n ds) none = parseDigits 10 ds (some n) := by
  induction fuel with
  | zero => intro n ds h; omega
  | succ fuel ih =>
    intro n ds h
    have hd := digitValue_digitChar (n % 10) (Nat.mod_lt n (by decide))
    have hlt : n % 10 < 10 := Nat.mod_lt n (by decide)
    by_cases h0 : n / 10 = 0
    · have hn : n % 10 = n := by omega
      simp only [Nat.toDigitsCore, h0, if_true, parseDigits, hd, hlt]
      simp [hn]
    · have hfuel : n / 10 < fuel := by omega
      simp only [Nat.toDigitsCore, h0, if_false]
      rw [ih (n / 10) _ hfuel]
      simp only [parseDigits, hd, hlt, if_true, Option.getD_some]
      congr 2
      omega

theorem toDigitsCore_decimal (fuel : Nat) :
    ∀ (n : Nat) (ds : List Char), (∀ c ∈ ds, 48 ≤ c.toNat ∧ c.toNat ≤ 57) →
      ∀ c ∈ Nat.toDigitsCore 10 fuel n ds, 48 ≤ c.toNat ∧ c.toNat ≤ 57 := by
  induction fuel with
  | zero => intro n ds h; simpa [Nat.toDigitsCore] using h
  | succ fuel ih =>
    intro n ds h
    have hd := digitChar_decimal (n % 10) (Nat.mod_lt n (by decide))
    have hcons : ∀ c ∈ Nat.digitChar (n % 10) :: ds, 48 ≤ c.toNat ∧ c.toNat ≤ 57 := by
      intro c hc
      rcases List.mem_cons.mp hc with rfl | hc
      · exact hd
      · exact h c hc
    by_cases h0 : n / 10 = 0
    · simpa only [Nat.toDigitsCore, h0, if_true] using hcons
    · simpa only [Nat.toDigitsCore, h0, if_false] using ih (n / 10) _ hcons

theorem decimal_not_whiteSpace (c : Char) (h : 48 ≤ c.toNat ∧ c.toNat ≤ 57) :
    isStrWhiteSpaceChar c = false := by
  simp only [isStrWhiteSpaceChar, Bool.or_eq_false_iff, Bool.and_eq_false_iff, beq_eq_false_iff_ne,
    decide_eq_false_iff_not]
  omega

theorem parseSign_decimal (l : List Char) (hdec : ∀ c ∈ l, 48 ≤ c.toNat ∧ c.toNat ≤ 57) :
    parseSign l = (1, l) := by
  unfold parseSign
  split
  · have := hdec '-' (List.mem_cons_self _ _)
    simp at this
  · have := hdec '+' (List.mem_cons_self _ _)
    simp at this
  · rfl

theorem parseRadix_decimal (l : List Char) (hdec : ∀ c ∈ l, 48 ≤ c.toNat ∧ c.toNat ≤ 57) :
    parseRadix l = (10, l) := by
  unfold parseRadix
  split
  · have := hdec 'x' (by simp)
    simp at this
  · have := hdec 'X' (by simp)
    simp at this
  · rfl

theorem dropWhile_whiteSpace_decimal (l : List Char)
    (hdec : ∀ c ∈ l, 48 ≤ c.toNat ∧ c.toNat ≤ 57) :
    l.dropWhile isStrWhiteSpaceChar = l := by
  cases l with
  | nil => rfl
  | cons c r =>
    simp [List.dropWhile, decimal_not_whiteSpace c (hdec c (List.mem_cons_self c r))]

/-- The decimal digits of a natural number, as `Number.prototype.toString` and
`Nat.repr` write them, are read back by `parseDigits`. -/
theorem parseDigits_toDigits (m : Nat) : parseDigits 10 (Nat.toDigits 10 m) none = some m := by
  unfold Nat.toDigits
  rw [parseDigits_toDigitsCore (m + 1) m [] (Nat.lt_succ_self m)]
  rfl

theorem toDigits_decimal (m : Nat) : ∀ c ∈ Nat.toDigits 10 m, 48 ≤ c.toNat ∧ c.toNat ≤ 57 :=
  toDigitsCore_decimal (m + 1) m [] (by simp)

/-- Reading a value whose text is the decimal digits of `m`: `parseInt` returns the
Number nearest to `m`. -/
theorem parseInt_of_digits (v : JSValue) (m : Nat)
    (hv : v.toStr.toList = Nat.toDigits 10 m) (hfin : bitLength (roundDouble m) ≤ 1024) :
    parseInt v = JSValue.num (roundDouble m) := by
  unfold parseInt
  rw [hv, dropWhile_whiteSpace_decimal _ (toDigits_decimal m),
    parseSign_decimal _ (toDigits_decimal m)]
  simp only [parseRadix_decimal _ (toDigits_decimal m), parseDigits_toDigits]
  simp [hfin]

/-- Reading a value whose text is a minus sign and the decimal digits of `m`. -/
theorem parseInt_of_neg_digits (v : JSValue) (m : Nat)
    (hv : v.toStr.toList = '-' :: Nat.toDigits 10 m)
    (hfin : bitLength (roundDouble m) ≤ 1024) :
    parseInt v = JSValue.num (-(roundDouble m : Int)) := by
  have hdrop : ('-' :: Nat.toDigits 10 m).dropWhile isStrWhiteSpaceChar
      = '-' :: Nat.toDigits 10 m := by
    rw [List.dropWhile_cons]
    rfl
  unfold parseInt
  rw [hv, hdrop]
  have hs : parseSign ('-' :: Nat.toDigits 10 m) = (-1, Nat.toDigits 10 m) := rfl
  rw [hs]
  simp only [parseRadix_decimal _ (toDigits_decimal m), parseDigits_toDigits]
  simp [hfin]

/-! ## Printing an integer Number and reading it back -/

theorem toDigits_length_le (b : Nat) (hb : 2 ≤ b) (x e : Nat) (hx : x < b ^ e) (he : 0 < e) :
    (Nat.toDigits b x).length ≤ e :=
  Nat.toDigitsCore_length b hb (x + 1) x e hx he

theorem bitLength_le_of_lt (x : Nat) (hx : x < 10 ^ 21) : bitLength x ≤ 1024 := by
  have h70 : x < 2 ^ 70 := Nat.lt_trans hx (by norm_num)
  have := toDigits_length_le 2 (Nat.le_refl 2) x 70 h70 (by decide)
  unfold bitLength
  omega

/-- The integer found by the search for the shortest digits denotes the Number the
search started from. -/
theorem shortestFrom_round (x : Nat) (hx : roundDouble x = x) (e : Nat) :
    roundDouble (shortestFrom x e) = x := by
  induction e with
  | zero => exact hx
  | succ e ih =>
    unfold shortestFrom
    simp only
    split
    · rename_i h; exact h.1
    · split
      · rename_i h; exact h
      · exact ih

theorem roundDouble_ten_pow_21 : roundDouble (10 ^ 21) = 10 ^ 21 := by decide

/-- Below `10^21` the search stays below `10^21`: the Number is printed as a plain
integer. -/
theorem shortestFrom_lt (x : Nat) (hx : x < 10 ^ 21) (e : Nat) (he : e ≤ 20) :
    shortestFrom x e < 10 ^ 21 := by
  induction e with
  | zero => exact hx
  | succ e ih =>
    unfold shortestFrom
    simp only
    split
    · exact Nat.lt_of_le_of_lt (Nat.div_mul_le_self x (10 ^ (e + 1))) hx
    · split
      · rename_i hhi
        have hpow : (10 : Nat) ^ 21 = 10 ^ (20 - e) * 10 ^ (e + 1) := by
          rw [← pow_add]
          congr 1
          omega
        have hdiv : x / 10 ^ (e + 1) < 10 ^ (20 - e) := by
          apply Nat.div_lt_of_lt_mul
          rw [Nat.mul_comm, ← hpow]
          exact hx
        have hle : x / 10 ^ (e + 1) * 10 ^ (e + 1) + 10 ^ (e + 1) ≤ 10 ^ 21 := by
          rw [hpow]
          calc x / 10 ^ (e + 1) * 10 ^ (e + 1) + 10 ^ (e + 1)
              = (x / 10 ^ (e + 1) + 1) * 10 ^ (e + 1) := by ring
            _ ≤ 10 ^ (20 - e) * 10 ^ (e + 1) := Nat.mul_le_mul_right _ hdiv
        rcases Nat.lt_or_eq_of_le hle with hlt | heq
        · exact hlt
        · rw [heq, roundDouble_ten_pow_21] at hhi
          omega
      · exact ih (by omega)

theorem shortestDecimal_round (x : Nat) (hx : roundDouble x = x) :
    roundDouble (shortestDecimal x) = x :=
  shortestFrom_round x hx _

theorem shortestDecimal_lt (x : Nat) (hx : x < 10 ^ 21) : shortestDecimal x < 10 ^ 21 := by
  have hlen := toDigits_length_le 10 (by decide) x 21 hx (by decide)
  exact shortestFrom_lt x hx _ (by omega)

theorem numberDigits_toList (x : Nat) (hx : x < 10 ^ 21) :
    (numberDigits x).toList = Nat.toDigits 10 (shortestDecimal x) := by
  unfold numberDigits
  rw [if_pos (shortestDecimal_lt x hx)]
  rfl

/-- The call `parseInt(n)` on an integer Number of magnitude below `10^21` returns
that Number: the digits printed for `n` are read back to `n`. -/
theorem parseInt_num (n : Int) (hnum : roundDouble n.natAbs = n.natAbs)
    (hlt : n.natAbs < 10 ^ 21) : parseInt (JSValue.num n) = JSValue.num n := by
  have hfin : bitLength (roundDouble (shortestDecimal n.natAbs)) ≤ 1024 := by
    rw [shortestDecimal_round _ hnum]
    exact bitLength_le_of_lt _ hlt
  cases n with
  | ofNat x =>
    have hl : (JSValue.num (Int.ofNat x)).toStr.toList = Nat.toDigits 10 (shortestDecimal x) :=
      numberDigits_toList x hlt
    rw [parseInt_of_digits _ _ hl hfin, shortestDecimal_round x hnum]
    rfl
  | negSucc k =>
    have hl : (JSValue.num (Int.negSucc k)).toStr.toList
        = '-' :: Nat.toDigits 10 (shortestDecimal (k + 1)) := by
      show ("-" ++ numberDigits (k + 1)).data = _
      rw [String.data_append]
      exact congrArg (fun l => '-' :: l) (numberDigits_toList (k + 1) hlt)
    rw [parseInt_of_neg_digits _ _ hl hfin, shortestDecimal_round (k + 1) hnum]
    rfl

/-- The call `parseInt(s)` on the decimal string of an integer Number of magnitude
below `10^21` returns that Number. -/
theorem parseInt_decimal_string (n : Int) (hnum : roundDouble n.natAbs = n.natAbs)
    (hlt : n.natAbs < 10 ^ 21) : parseInt (JSValue.str (toString n)) = JSValue.num n := by
  have hfin : bitLength (roundDouble n.natAbs) ≤ 1024 := by
    rw [hnum]
    exact bitLength_le_of_lt _ hlt
  cases n with
  | ofNat x =>
    have hl : (JSValue.str (toString (Int.ofNat x))).toStr.toList = Nat.toDigits 10 x := rfl
    have hnum' : roundDouble x = x := hnum
    rw [parseInt_of_digits _ _ hl hfin, hnum']
    rfl
  | negSucc k =>
    have hl : (JSValue.str (toString (Int.negSucc k))).toStr.toList
        = '-' :: Nat.toDigits 10 (k + 1) := rfl
    have hnum' : roundDouble (k + 1) = k + 1 := hnum
    rw [parseInt_of_neg_digits _ _ hl hfin, hnum']
    rfl

/-! ## Filtering by user -/

theorem strictEq_nan (v : JSValue) : v.strictEq JSValue.nan = false := by
  cases v <;> rfl

theorem strictEq_str (v : JSValue) (s : String) :
    v.strictEq (JSValue.str s) = true ↔ v = JSValue.str s := by
  cases v <;> simp [JSValue.strictEq]

theorem strictEq_num (v : JSValue) (n : Int) :
    v.strictEq (JSValue.num n) = true ↔ v = JSValue.num n := by
  cases v <;> simp [JSValue.strictEq]

/-- C2. Evaluation at the failing input: after two orders of user 1 are created one
after the other, `Order.findByUserId(1)` returns them oldest first, in the order of
insertion, while `Order.findAll()` returns them newest first; the list of
`findByUserId` is not in descending `createdAt` order. -/
theorem findByUserId_insertion_order :
    (Order.findByUserId twoOrders (.num 1)).map (fun o => o.get "createdAt")
      = [.str "2024-01-01T00:00:00.000Z", .str "2024-01-01T00:00:00.002Z"] ∧
    (Order.findAll refEnv twoOrders).2.map (fun o => o.get "createdAt")
      = [.str "2024-01-01T00:00:00.002Z", .str "2024-01-01T00:00:00.000Z"] ∧
    ¬ (Order.findByUserId twoOrders (.num 1)).Pairwise
      (fun a b => Order.TimeLE refEnv (b.get "createdAt") (a.get "createdAt")) := by
  refine ⟨rfl, rfl, ?_⟩
  intro h
  have h2 : (Order.findByUserId twoOrders (.num 1)) =
      [Order.newOrder "order-0" "2024-01-01T00:00:00.000Z" "2024-01-01T00:00:00.001Z"
        (sampleData 1),
       Order.newOrder "order-1" "2024-01-01T00:00:00.002Z" "2024-01-01T00:00:00.003Z"
        (sampleData 1)] := rfl
  rw [h2, List.pairwise_cons] at h
  obtain ⟨ta, tb, hta, htb, hle⟩ := h.1 _ (List.mem_singleton_self _)
  have hta' : ta = 1704067200002 := (Option.some.inj hta).symm
  have htb' : tb = 1704067200000 := (Option.some.inj htb).symm
  omega

/-- C3, counterexample. The integer `10^21` is a Number, and `String(1e21)` is
`1e+21`, so `parseInt(1e21)` is 1: `Order.findByUserId(1e21)` returns the orders of
user 1, while `Order.findByUserId("1000000000000000000000")` returns none of them.
The two calls differ, and the first returns orders whose `userId` is not `10^21`. -/
theorem findByUserId_exponent_counterexample :
    roundDouble (10 ^ 21) = 10 ^ 21 ∧
    (JSValue.num 1000000000000000000000).toStr = "1e+21" ∧
    toString (1000000000000000000000 : Int) = "1000000000000000000000" ∧
    parseInt (.num 1000000000000000000000) = .num 1 ∧
    Order.findByUserId twoOrders (.num 1000000000000000000000) = twoOrders.orders ∧
    (∀ o ∈ twoOrders.orders, o.get "userId" = .num 1) ∧
    Order.findByUserId twoOrders (.str "1000000000000000000000") = [] ∧
    Order.findByUserId twoOrders (.num 1000000000000000000000)
      ≠ Order.findByUserId twoOrders (.str (toString (1000000000000000000000 : Int))) := by
  refine ⟨by decide, rfl, rfl, rfl, rfl, ?_, rfl, ?_⟩
  · intro o ho
    have ho' : o ∈ [Order.newOrder "order-0" "2024-01-01T00:00:00.000Z"
        "2024-01-01T00:00:00.001Z" (sampleData 1),
        Order.newOrder "order-1" "2024-01-01T00:00:00.002Z" "2024-01-01T00:00:00.003Z"
        (sampleData 1)] := ho
    simp only [List.mem_cons, List.mem_singleton, List.not_mem_nil, or_false] at ho'
    rcases ho' with rfl | rfl <;> rfl
  · intro e
    have e' : [Order.newOrder "order-0" "2024-01-01T00:00:00.000Z"
        "2024-01-01T00:00:00.001Z" (sampleData 1),
        Order.newOrder "order-1" "2024-01-01T00:00:00.002Z" "2024-01-01T00:00:00.003Z"
        (sampleData 1)] = [] := e
    exact List.noConfusion e'

/-- C3, amended. For an integer `n` that is a Number (exactly representable, as
every integer up to `2^53` in magnitude is) of magnitude below `10^21`,
`Order.findByUserId(n)` and `Order.findByUserId(s)`, `s` the decimal string of `n`,
return the same list, and that list is the stored orders whose `userId` is the
number `n`, each once and in stored order. -/
theorem findByUserId_number_string (st : State) (n : Int)
    (hnum : roundDouble n.natAbs = n.natAbs) (hlt : n.natAbs < 10 ^ 21) :
    Order.findByUserId st (.num n) = Order.findByUserId st (.str (toString n)) ∧
    Order.findByUserId st (.num n)
      = st.orders.filter (fun o => (o.get "userId").strictEq (.num n)) ∧
    ∀ o, o ∈ Order.findByUserId st (.num n) ↔ o ∈ st.orders ∧ o.get "userId" = .num n := by
  have hparse : parseInt (.num n) = .num n := parseInt_num n hnum hlt
  have hstr : parseInt (.str (toString n)) = .num n := parseInt_decimal_string n hnum hlt
  refine ⟨?_, ?_, ?_⟩
  · simp only [Order.findByUserId, hstr, hparse]
  · simp only [Order.findByUserId, hparse]
  · intro o
    simp only [Order.findByUserId, hparse, List.mem_filter, strictEq_num]

theorem findByUserId_number_string_witness :
    roundDouble (1152921504606846976 : Int).natAbs = (1152921504606846976 : Int).natAbs ∧
    (1152921504606846976 : Int).natAbs < 10 ^ 21 ∧
    Order.findByUserId twoOrders (.num 1152921504606846976)
      = Order.findByUserId twoOrders (.str (toString (1152921504606846976 : Int))) ∧
    Order.findByUserId twoOrders (.num 1152921504606846976)
      = twoOrders.orders.filter
        (fun o => (o.get "userId").strictEq (.num 1152921504606846976)) ∧
    ∀ o, o ∈ Order.findByUserId twoOrders (.num 1152921504606846976) ↔
      o ∈ twoOrders.orders ∧ o.get "userId" = .num 1152921504606846976 :=
  ⟨by decide, by decide,
    findByUserId_number_string twoOrders 1152921504606846976 (by decide) (by decide)⟩

/-- C4. When `parseInt` yields `NaN` for the string `s`, `Order.findByUserId(s)`
returns the empty list, whatever the stored orders are. -/
theorem findByUserId_not_a_number (st : State) (s : String)
    (hnan : parseInt (.str s) = JSValue.nan) :
    Order.findByUserId st (.str s) = [] := by
  simp [Order.findByUserId, hnan, strictEq_nan]

theorem findByUserId_not_a_number_witness :
    parseInt (.str "not-a-number") = JSValue.nan ∧
    Order.findByUserId twoOrders (.str "not-a-number") = [] :=
  ⟨rfl, findByUserId_not_a_number twoOrders "not-a-number" rfl⟩

/-! ## Objects: reading after writing -/

theorem Obj.get_nil (k : String) : Obj.get [] k = JSValue.undefined := rfl

theorem Obj.get_cons (k' : String) (v' : JSValue) (rest : Obj) (k : String) :
    Obj.get ((k', v') :: rest) k = if k = k' then v' else Obj.get rest k := by
  by_cases h : k = k'
  · simp [Obj.get, List.lookup, h]
  · have hb : (k == k') = false := by simpa using h
    simp [Obj.get, List.lookup, h, hb]

theorem Obj.get_set (o : Obj) (k : String) (v : JSValue) (k' : String) :
    (o.set k v).get k' = if k' = k then v else o.get k' := by
  induction o with
  | nil => simp [Obj.set, Obj.get_cons, Obj.get_nil]
  | cons p rest ih =>
    obtain ⟨k₀, v₀⟩ := p
    unfold Obj.set
    by_cases h : k₀ = k
    · subst h
      simp only [if_true, Obj.get_cons]
      by_cases h' : k' = k₀ <;> simp [h']
    · simp only [h, if_false, Obj.get_cons, ih]
      by_cases h' : k' = k₀
      · have : k' ≠ k := fun e => h (h' ▸ e)
        simp [h', this, h]
      · simp [h']

theorem Obj.get_of_not_mem_keys (o : Obj) (k : String) (h : k ∉ o.keys) :
    o.get k = JSValue.undefined := by
  induction o with
  | nil => rfl
  | cons p rest ih =>
    obtain ⟨k₀, v₀⟩ := p
    simp only [Obj.keys, List.map_cons, List.mem_cons, not_or] at h
    rw [Obj.get_cons, if_neg h.1]
    exact ih h.2

theorem Obj.get_foldl_set (src : Obj) (ks : List String) (target : Obj) (k : String) :
    (ks.foldl (fun acc k => Obj.set acc k (src.get k)) target).get k
      = if k ∈ ks then src.get k else target.get k := by
  induction ks generalizing target with
  | nil => simp
  | cons k₀ ks ih =>
    rw [List.foldl_cons, ih, Obj.get_set]
    by_cases h : k ∈ ks
    · simp [h]
    · by_cases h' : k = k₀
      · simp [h']
      · simp [h, h']

/-- Reading a property of `{...target, ...src}`: the value in `src` when `src` names
the property, else the value in `target`. -/
theorem Obj.get_spread (target src : Obj) (k : String) :
    (target.spread src).get k = if k ∈ src.keys then src.get k else target.get k :=
  Obj.get_foldl_set src src.keys target k

/-- Reading a property of `{...order, ...orderData, updatedAt: t}`. -/
theorem Order.get_merged (order orderData : Obj) (t : String) (k : String) :
    (Order.merged order orderData t).get k =
      if k = "updatedAt" then JSValue.str t
      else if k ∈ orderData.keys then orderData.get k else order.get k := by
  unfold Order.merged
  rw [Obj.get_set, Obj.get_spread, Obj.get_spread]
  by_cases h : k ∈ order.keys
  · simp [h]
  · simp [h, Obj.get_of_not_mem_keys order k h, Obj.get_nil]

/-! ## Looking an order up by id -/

theorem find?_findIdx? {α : Type} (p : α → Bool) (l : List α) (a : α)
    (h : l.find? p = some a) :
    ∃ i, l.findIdx? p = some i ∧ l[i]? = some a := by
  induction l with
  | nil => simp at h
  | cons x xs ih =>
    by_cases hx : p x = true
    · simp only [List.find?_cons, hx] at h
      exact ⟨0, by simp [List.findIdx?_cons, hx], by simpa using h⟩
    · have hx' : p x = false := by simpa using hx
      simp only [List.find?_cons, hx'] at h
      obtain ⟨i, hi, ha⟩ := ih h
      refine ⟨i + 1, ?_, by simpa using ha⟩
      simp [List.findIdx?_cons, hx', List.findIdx?_succ, hi]

theorem findIdx?_none_of_find? {α : Type} (p : α → Bool) (l : List α)
    (h : l.find? p = none) : l.findIdx? p = none := by
  induction l with
  | nil => rfl
  | cons x xs ih =>
    by_cases hx : p x = true
    · simp [List.find?_cons, hx] at h
    · have hx' : p x = false := by simpa using hx
      simp only [List.find?_cons, hx'] at h
      simp [List.findIdx?_cons, hx', List.findIdx?_succ, ih h]

/-- C5. When the identifier generated for the new order differs from the id of every
stored order, `Order.findById(Order.create(d).id)` called right after the creation
returns the order that `create` returned, and the store after `create` is the store
before it with that order appended. -/
theorem create_then_findById (env : Env) (st : State) (d : Obj)
    (hfresh : ∀ o ∈ st.orders, o.get "id" ≠ JSValue.str (env.uuidv4 st.uuids)) :
    Order.findById (Order.create env st d).1 ((Order.create env st d).2.get "id")
      = some (Order.create env st d).2 ∧
    (Order.create env st d).1.orders = st.orders ++ [(Order.create env st d).2] := by
  refine ⟨?_, rfl⟩
  have hid : (Order.create env st d).2.get "id" = JSValue.str (env.uuidv4 st.uuids) := rfl
  rw [hid]
  show (st.orders ++ [(Order.create env st d).2]).find? _ = _
  rw [List.find?_append]
  have hnone : st.orders.find?
      (fun order => (order.get "id").strictEq (JSValue.str (env.uuidv4 st.uuids))) = none := by
    rw [List.find?_eq_none]
    intro o ho hEq
    exact hfresh o ho ((strictEq_str _ _).mp hEq)
  rw [hnone]
  simp [List.find?_cons, hid, JSValue.strictEq]

theorem create_then_findById_witness :
    (∀ o ∈ oneOrder.orders, o.get "id" ≠ JSValue.str (refEnv.uuidv4 oneOrder.uuids)) ∧
    Order.findById (Order.create refEnv oneOrder (sampleData 2)).1
        ((Order.create refEnv oneOrder (sampleData 2)).2.get "id")
      = some (Order.create refEnv oneOrder (sampleData 2)).2 ∧
    (Order.create refEnv oneOrder (sampleData 2)).1.orders
      = oneOrder.orders ++ [(Order.create refEnv oneOrder (sampleData 2)).2] :=
  have h : ∀ o ∈ oneOrder.orders, o.get "id" ≠ JSValue.str (refEnv.uuidv4 oneOrder.uuids) := by
    intro o ho
    have ho' : o ∈ [Order.newOrder "order-0" "2024-01-01T00:00:00.000Z"
        "2024-01-01T00:00:00.001Z" (sampleData 1)] := ho
    rw [List.mem_singleton] at ho'
    subst ho'
    show JSValue.str "order-0" ≠ JSValue.str "order-1"
    intro e
    exact absurd (JSValue.str.inj e) (by decide)
  ⟨h, create_then_findById refEnv oneOrder (sampleData 2) h⟩

/-- C6. Evaluation at the failing input: `Order.create` reads the clock twice, once
for `createdAt` and once for `updatedAt`; on a clock that advances by a millisecond
between the two readings the order it returns has `createdAt` different from
`updatedAt`. -/
theorem create_reads_clock_twice :
    (Order.create refEnv State.empty (sampleData 1)).2.get "createdAt"
      = .str "2024-01-01T00:00:00.000Z" ∧
    (Order.create refEnv State.empty (sampleData 1)).2.get "updatedAt"
      = .str "2024-01-01T00:00:00.001Z" ∧
    (Order.create refEnv State.empty (sampleData 1)).2.get "createdAt"
      ≠ (Order.create refEnv State.empty (sampleData 1)).2.get "updatedAt" := by
  refine ⟨rfl, rfl, ?_⟩
  intro e
  have e' : JSValue.str "2024-01-01T00:00:00.000Z" = JSValue.str "2024-01-01T00:00:00.001Z" := e
  exact absurd (JSValue.str.inj e') (by decide)

/-- C7, counterexample. Order data that supply the empty string as `status` are
created with status `pending`, not with the supplied status. -/
theorem create_status_counterexample :
    "status" ∈ emptyStatusData.keys ∧
    (Order.create refEnv State.empty emptyStatusData).2.get "status" = .str "pending" ∧
    (Order.create refEnv State.empty emptyStatusData).2.get "status"
      ≠ emptyStatusData.get "status" := by
  refine ⟨by decide, rfl, ?_⟩
  intro e
  have e' : JSValue.str "pending" = JSValue.str "" := e
  exact absurd (JSValue.str.inj e') (by decide)

/-- C7, amended. The order returned by `Order.create(d)` has the status `d.status`
when that value is truthy and `pending` otherwise, the shipping address
`d.shippingAddress` when that value is truthy and `null` otherwise, and `userId`,
`items` and `totalAmount` as `d` gives them. -/
theorem create_fields (env : Env) (st : State) (d : Obj) :
    (Order.create env st d).2.get "status"
      = (if (d.get "status").truthy then d.get "status" else .str "pending") ∧
    (Order.create env st d).2.get "shippingAddress"
      = (if (d.get "shippingAddress").truthy then d.get "shippingAddress" else .null) ∧
    (Order.create env st d).2.get "userId" = d.get "userId" ∧
    (Order.create env st d).2.get "items" = d.get "items" ∧
    (Order.create env st d).2.get "totalAmount" = d.get "totalAmount" :=
  ⟨rfl, rfl, rfl, rfl, rfl⟩

/-- C8, counterexample. A patch that names `updatedAt` does not set it: the order
returned by `Order.update` carries the clock reading in `updatedAt`, not the
patch's value. -/
theorem update_updatedAt_counterexample :
    Order.findById oneOrder (.str "order-0") ≠ none ∧
    "updatedAt" ∈ updatedAtPatch.keys ∧
    ∃ o, (Order.update refEnv oneOrder (.str "order-0") updatedAtPatch).2 = some o ∧
      o.get "updatedAt" = .str "2024-01-01T00:00:00.002Z" ∧
      o.get "updatedAt" ≠ updatedAtPatch.get "updatedAt" := by
  refine ⟨?_, by decide, _, rfl, rfl, ?_⟩
  · intro e
    have e' : some (Order.newOrder "order-0" "2024-01-01T00:00:00.000Z"
        "2024-01-01T00:00:00.001Z" (sampleData 1)) = none := e
    exact Option.noConfusion e'
  · intro e
    have e' : JSValue.str "2024-01-01T00:00:00.002Z"
        = JSValue.str "1999-12-31T00:00:00.000Z" := e
    exact absurd (JSValue.str.inj e') (by decide)

theorem Order.update_found (env : Env) (st : State) (id : JSValue) (p old : Obj) (i : Nat)
    (hidx : Order.findIndex st id = some i) (hold : st.orders[i]? = some old) :
    Order.update env st id p =
      ({ st with orders := st.orders.set i (Order.merged old p (env.now st.ticks)),
                 ticks := st.ticks + 1 },
        some (Order.merged old p (env.now st.ticks))) := by
  have hget : st.orders.getD i [] = old := by
    simp [List.getD_eq_getElem?_getD, hold]
  simp only [Order.update, hidx]
  rw [hget]

theorem Order.updateStatus_found (env : Env) (st : State) (id status : JSValue) (old : Obj)
    (i : Nat) (hidx : Order.findIndex st id = some i) (hold : st.orders[i]? = some old) :
    Order.updateStatus env st id status =
      ({ st with orders := st.orders.set i
                   ((old.set "status" status).set "updatedAt" (JSValue.str (env.now st.ticks))),
                 ticks := st.ticks + 1 },
        some ((old.set "status" status).set "updatedAt" (JSValue.str (env.now st.ticks)))) := by
  have hget : st.orders.getD i [] = old := by
    simp [List.getD_eq_getElem?_getD, hold]
  simp only [Order.updateStatus, hidx]
  rw [hget]

theorem Order.findIndex_some (st : State) (id : JSValue) (i : Nat)
    (h : Order.findIndex st id = some i) : ∃ old, st.orders[i]? = some old := by
  have hlt : i < st.orders.length := by
    have := List.findIdx?_eq_some_iff_getElem.mp h
    exact this.1
  exact ⟨st.orders[i], List.getElem?_eq_getElem hlt⟩

/-- C8, amended. For an id present in the store, `Order.update(id, p)` returns, and
stores in place of the first order with that id, an order in which `updatedAt` is
the clock reading (also when `p` names `updatedAt`), every other field named in `p`
has the value `p` gives it, and every other field not named in `p` has the value it
had before the call. -/
theorem update_merges (env : Env) (st : State) (id : JSValue) (p old : Obj)
    (hfound : Order.findById st id = some old) :
    ∃ i o, Order.findIndex st id = some i ∧ st.orders[i]? = some old ∧
      (Order.update env st id p).2 = some o ∧
      (Order.update env st id p).1.orders = st.orders.set i o ∧
      (Order.update env st id p).1.orders[i]? = some o ∧
      o.get "updatedAt" = .str (env.now st.ticks) ∧
      ∀ k, k ≠ "updatedAt" → o.get k = if k ∈ p.keys then p.get k else old.get k := by
  obtain ⟨i, hi, hold⟩ := find?_findIdx? _ st.orders old hfound
  have hidx : Order.findIndex st id = some i := hi
  have hlt : i < st.orders.length := (List.getElem?_eq_some_iff.mp hold).1
  have hupd := Order.update_found env st id p old i hidx hold
  refine ⟨i, Order.merged old p (env.now st.ticks), hidx, hold, ?_, ?_, ?_, ?_, ?_⟩
  · rw [hupd]
  · rw [hupd]
  · rw [hupd]
    simp [hlt]
  · simp [Order.get_merged]
  · intro k hk
    simp [Order.get_merged, hk]

theorem update_merges_witness :
    Order.findById oneOrder (.str "order-0") = some (Order.newOrder "order-0"
      "2024-01-01T00:00:00.000Z" "2024-01-01T00:00:00.001Z" (sampleData 1)) ∧
    ∃ i o, Order.findIndex oneOrder (.str "order-0") = some i ∧
      oneOrder.orders[i]? = some (Order.newOrder "order-0"
        "2024-01-01T00:00:00.000Z" "2024-01-01T00:00:00.001Z" (sampleData 1)) ∧
      (Order.update refEnv oneOrder (.str "order-0") updatedAtPatch).2 = some o ∧
      (Order.update refEnv oneOrder (.str "order-0") updatedAtPatch).1.orders
        = oneOrder.orders.set i o ∧
      (Order.update refEnv oneOrder (.str "order-0") updatedAtPatch).1.orders[i]? = some o ∧
      o.get "updatedAt" = .str (refEnv.now oneOrder.ticks) ∧
      ∀ k, k ≠ "updatedAt" → o.get k =
        if k ∈ updatedAtPatch.keys then updatedAtPatch.get k
        else (Order.newOrder "order-0" "2024-01-01T00:00:00.000Z"
          "2024-01-01T00:00:00.001Z" (sampleData 1)).get k :=
  ⟨rfl, update_merges refEnv oneOrder (.str "order-0") updatedAtPatch _ rfl⟩

/-! ## Sequences of calls: what a call leaves in place -/

theorem forall₂_set {R : Obj → Obj → Prop} (l : List Obj) (i : Nat) (old new : Obj)
    (hold : l[i]? = some old) (hR : R old new) (hrefl : ∀ x ∈ l, R x x) :
    List.Forall₂ R l (l.set i new) := by
  induction l generalizing i with
  | nil => simp at hold
  | cons x xs ih =>
    cases i with
    | zero =>
      simp only [List.getElem?_cons_zero, Option.some.injEq] at hold
      subst hold
      exact List.Forall₂.cons hR
        (List.forall₂_same.mpr (fun y hy => hrefl y (List.mem_cons_of_mem _ hy)))
    | succ i =>
      simp only [List.getElem?_cons_succ] at hold
      exact List.Forall₂.cons (hrefl x (List.mem_cons_self _ _))
        (ih i hold (fun y hy => hrefl y (List.mem_cons_of_mem _ hy)))

theorem forall₂_mem_right {R : Obj → Obj → Prop} {l l' : List Obj}
    (h : List.Forall₂ R l l') : ∀ o' ∈ l', ∃ o ∈ l, R o o' := by
  induction h with
  | nil => intro o' ho'; simp at ho'
  | cons hab _ ih =>
    intro o' ho'
    rcases List.mem_cons.mp ho' with rfl | ho'
    · exact ⟨_, List.mem_cons_self _ _, hab⟩
    · obtain ⟨o, ho, hR⟩ := ih o' ho'
      exact ⟨o, List.mem_cons_of_mem _ ho, hR⟩

theorem forall₂_map_eq {β : Type} (f : Obj → β) {l l' : List Obj}
    (h : List.Forall₂ (fun o o' => f o' = f o) l l') : l'.map f = l.map f := by
  induction h with
  | nil => rfl
  | cons hab _ ih => simp [hab, ih]

/-- One call, framed: `update` and `updateStatus` relate the orders position by
position, by a relation that holds between a stored order and itself and between
the order found and the order written in its place. -/
theorem step_frame (env : Env) (st : State) (call : Call) (R : Obj → Obj → Prop)
    (hrefl : ∀ o ∈ st.orders, R o o)
    (hupdate : ∀ id p, call = .update id p → Order.findIndex st id ≠ none →
      ∀ old ∈ st.orders, R old (Order.merged old p (env.now st.ticks)))
    (hstatus : ∀ id s, call = .updateStatus id s → Order.findIndex st id ≠ none →
      ∀ old ∈ st.orders,
        R old ((old.set "status" s).set "updatedAt" (JSValue.str (env.now st.ticks)))) :
    Frame R call st.orders (step env st call).orders := by
  cases call with
  | findAll => exact arraySort_perm _ _
  | findById id => exact rfl
  | findByUserId u => exact rfl
  | create d => exact ⟨_, rfl⟩
  | update id p =>
    show List.Forall₂ R st.orders (Order.update env st id p).1.orders
    cases hidx : Order.findIndex st id with
    | none =>
      simp only [Order.update, hidx]
      exact List.forall₂_same.mpr hrefl
    | some i =>
      obtain ⟨old, hold⟩ := Order.findIndex_some st id i hidx
      rw [Order.update_found env st id p old i hidx hold]
      exact forall₂_set st.orders i old _ hold
        (hupdate id p rfl (by simp [hidx]) old (List.getElem?_mem hold)) hrefl
  | delete id =>
    show ∃ i, (Order.delete st id).1.orders = st.orders.eraseIdx i
    cases hidx : Order.findIndex st id with
    | none =>
      refine ⟨st.orders.length, ?_⟩
      simp only [Order.delete, hidx]
      exact (List.eraseIdx_of_length_le (Nat.le_refl _)).symm
    | some i =>
      exact ⟨i, by simp only [Order.delete, hidx]⟩
  | updateStatus id s =>
    show List.Forall₂ R st.orders (Order.updateStatus env st id s).1.orders
    cases hidx : Order.findIndex st id with
    | none =>
      simp only [Order.updateStatus, hidx]
      exact List.forall₂_same.mpr hrefl
    | some i =>
      obtain ⟨old, hold⟩ := Order.findIndex_some st id i hidx
      rw [Order.updateStatus_found env st id s old i hidx hold]
      exact forall₂_set st.orders i old _ hold
        (hstatus id s rfl (by simp [hidx]) old (List.getElem?_mem hold)) hrefl

theorem Frame.mono {R R' : Obj → Obj → Prop} (hRR' : ∀ o o', R o o' → R' o o')
    {call : Call} {l l' : List Obj} (h : Frame R call l l') : Frame R' call l l' := by
  cases call with
  | update id p => exact List.Forall₂.imp (fun o o' hR => hRR' o o' hR) h
  | updateStatus id s => exact List.Forall₂.imp (fun o o' hR => hRR' o o' hR) h
  | _ => exact h

/-- A property of the stored orders after a call, from a property of the stored
orders before it: it is enough that it carries over along the relation of the
frame, to an order that is kept as it is, and holds of the order a `create`
appends. -/
theorem Frame.forall_mem {R : Obj → Obj → Prop} {call : Call} {l l' : List Obj}
    (h : Frame R call l l') (P P' : Obj → Prop) (hP : ∀ o ∈ l, P o)
    (hR : ∀ o o', R o o' → P o → P' o') (hkeep : ∀ o, P o → P' o)
    (hnew : ∀ d o, call = .create d → l' = l ++ [o] → P' o) :
    ∀ o' ∈ l', P' o' := by
  intro o' ho'
  cases call with
  | findAll => exact hkeep o' (hP o' ((List.Perm.mem_iff h).mp ho'))
  | findById id =>
    have h' : l' = l := h
    exact hkeep o' (hP o' (h' ▸ ho'))
  | findByUserId u =>
    have h' : l' = l := h
    exact hkeep o' (hP o' (h' ▸ ho'))
  | create d =>
    obtain ⟨o, ho⟩ := h
    rw [ho] at ho'
    rcases List.mem_append.mp ho' with hm | hm
    · exact hkeep o' (hP o' hm)
    · rw [List.mem_singleton] at hm
      subst hm
      exact hnew d o' rfl ho
  | update id p =>
    obtain ⟨o, ho, hoo'⟩ := forall₂_mem_right h o' ho'
    exact hR o o' hoo' (hP o ho)
  | delete id =>
    obtain ⟨i, hi⟩ := h
    rw [hi] at ho'
    exact hkeep o' (hP o' (List.mem_of_mem_eraseIdx ho'))
  | updateStatus id s =>
    obtain ⟨o, ho, hoo'⟩ := forall₂_mem_right h o' ho'
    exact hR o o' hoo' (hP o ho)

theorem run_append (env : Env) (calls : List Call) (call : Call) :
    run env (calls ++ [call]) = step env (run env calls) call := by
  simp [run, List.foldl_append]

/-- An invariant of the states reached from the empty store. -/
theorem run_invariant (env : Env) (I : State → Prop) (ok : Call → Prop)
    (h0 : I State.empty) (hstep : ∀ st call, I st → ok call → I (step env st call)) :
    ∀ calls : List Call, (∀ c ∈ calls, ok c) → I (run env calls) := by
  intro calls
  induction calls using List.reverseRecOn with
  | nil => intro _; exact h0
  | append_singleton cs c ih =>
    intro hok
    rw [run_append]
    exact hstep _ c (ih (fun x hx => hok x (List.mem_append_left _ hx)))
      (hok c (List.mem_append_right _ (List.mem_singleton_self c)))

/-! ## Timestamps along a sequence of calls -/

theorem step_ticks_le (env : Env) (st : State) (call : Call) :
    st.ticks ≤ (step env st call).ticks := by
  cases call with
  | findAll => exact Nat.le_refl _
  | findById id => exact Nat.le_refl _
  | findByUserId u => exact Nat.le_refl _
  | create d => exact Nat.le_add_right _ 2
  | update id p =>
    show st.ticks ≤ (Order.update env st id p).1.ticks
    unfold Order.update
    split
    · exact Nat.le_refl _
    · exact Nat.le_succ _
  | delete id =>
    show st.ticks ≤ (Order.delete st id).1.ticks
    unfold Order.delete
    split <;> exact Nat.le_refl _
  | updateStatus id s =>
    show st.ticks ≤ (Order.updateStatus env st id s).1.ticks
    unfold Order.updateStatus
    split
    · exact Nat.le_refl _
    · exact Nat.le_succ _

theorem update_ticks (env : Env) (st : State) (id : JSValue) (p : Obj)
    (h : Order.findIndex st id ≠ none) :
    (step env st (.update id p)).ticks = st.ticks + 1 := by
  show (Order.update env st id p).1.ticks = st.ticks + 1
  unfold Order.update
  split
  · rename_i hnone; exact absurd hnone h
  · rfl

theorem updateStatus_ticks (env : Env) (st : State) (id s : JSValue)
    (h : Order.findIndex st id ≠ none) :
    (step env st (.updateStatus id s)).ticks = st.ticks + 1 := by
  show (Order.updateStatus env st id s).1.ticks = st.ticks + 1
  unfold Order.updateStatus
  split
  · rename_i hnone; exact absurd hnone h
  · rfl

/-- One call on a store whose orders carry clock readings: an order that stays keeps
its `createdAt`, and its `updatedAt` either stays or becomes the reading the call
takes. -/
theorem step_frame_stamps (env : Env) (st : State) (call : Call)
    (hst : ∀ o ∈ st.orders, Order.Stamped env st.ticks o)
    (hpatch : "createdAt" ∉ call.patchKeys) :
    Frame (fun o o' => Order.Stamped env st.ticks o ∧
        o'.get "createdAt" = o.get "createdAt" ∧
        (o'.get "updatedAt" = o.get "updatedAt" ∨
          (o'.get "updatedAt" = JSValue.str (env.now st.ticks) ∧
            st.ticks < (step env st call).ticks)))
      call st.orders (step env st call).orders := by
  apply step_frame
  · intro o ho
    exact ⟨hst o ho, rfl, Or.inl rfl⟩
  · intro id p hcall hfound old hold
    subst hcall
    have hk : "createdAt" ∉ p.keys := hpatch
    refine ⟨hst old hold, ?_, Or.inr ⟨?_, ?_⟩⟩
    · rw [Order.get_merged, if_neg (by decide), if_neg hk]
    · rw [Order.get_merged, if_pos rfl]
    · rw [update_ticks env st id p hfound]
      exact Nat.lt_succ_self _
  · intro id s hcall hfound old hold
    subst hcall
    refine ⟨hst old hold, ?_, Or.inr ⟨?_, ?_⟩⟩
    · rw [Obj.get_set, if_neg (by decide), Obj.get_set, if_neg (by decide)]
    · rw [Obj.get_set, if_pos rfl]
    · rw [updateStatus_ticks env st id s hfound]
      exact Nat.lt_succ_self _

theorem step_stamped (env : Env) (st : State) (call : Call)
    (hst : ∀ o ∈ st.orders, Order.Stamped env st.ticks o)
    (hpatch : "createdAt" ∉ call.patchKeys) :
    ∀ o ∈ (step env st call).orders, Order.Stamped env (step env st call).ticks o := by
  have hle := step_ticks_le env st call
  refine Frame.forall_mem (step_frame_stamps env st call hst hpatch)
    (Order.Stamped env st.ticks) (Order.Stamped env (step env st call).ticks) hst ?_ ?_ ?_
  · rintro o o' ⟨-, hc, hu⟩ ⟨i, j, hij, hj, hci, huj⟩
    rcases hu with hu | ⟨hu, hlt⟩
    · exact ⟨i, j, hij, Nat.lt_of_lt_of_le hj hle, hc.trans hci, hu.trans huj⟩
    · exact ⟨i, st.ticks, Nat.le_of_lt (Nat.lt_of_le_of_lt hij hj), hlt, hc.trans hci, hu⟩
  · rintro o ⟨i, j, hij, hj, hci, huj⟩
    exact ⟨i, j, hij, Nat.lt_of_lt_of_le hj hle, hci, huj⟩
  · intro d o hcall ho
    subst hcall
    have ho' : st.orders ++ [(Order.create env st d).2] = st.orders ++ [o] := ho
    have hoeq : o = (Order.create env st d).2 := by
      have := List.append_cancel_left ho'
      simpa using this.symm
    subst hoeq
    exact ⟨st.ticks, st.ticks + 1, Nat.le_succ _, Nat.lt_succ_self _, rfl, rfl⟩

theorem run_stamped (env : Env) (calls : List Call)
    (hpatch : ∀ c ∈ calls, "createdAt" ∉ c.patchKeys) :
    ∀ o ∈ (run env calls).orders, Order.Stamped env (run env calls).ticks o :=
  run_invariant env (fun st => ∀ o ∈ st.orders, Order.Stamped env st.ticks o)
    (fun c => "createdAt" ∉ c.patchKeys)
    (fun o ho => by simp [State.empty] at ho)
    (fun st call hst hok => step_stamped env st call hst hok) calls hpatch

/-- One call, whatever its patch: the `updatedAt` of an order that stays either
stays or becomes the reading the call takes. -/
theorem step_frame_updated (env : Env) (st : State) (call : Call)
    (hst : ∀ o ∈ st.orders, Order.UpdatedStamped env st.ticks o) :
    Frame (fun o o' => Order.UpdatedStamped env st.ticks o ∧
        (o'.get "updatedAt" = o.get "updatedAt" ∨
          (o'.get "updatedAt" = JSValue.str (env.now st.ticks) ∧
            st.ticks < (step env st call).ticks)))
      call st.orders (step env st call).orders := by
  apply step_frame
  · intro o ho
    exact ⟨hst o ho, Or.inl rfl⟩
  · intro id p hcall hfound old hold
    subst hcall
    refine ⟨hst old hold, Or.inr ⟨?_, ?_⟩⟩
    · rw [Order.get_merged, if_pos rfl]
    · rw [update_ticks env st id p hfound]
      exact Nat.lt_succ_self _
  · intro id s hcall hfound old hold
    subst hcall
    refine ⟨hst old hold, Or.inr ⟨?_, ?_⟩⟩
    · rw [Obj.get_set, if_pos rfl]
    · rw [updateStatus_ticks env st id s hfound]
      exact Nat.lt_succ_self _

theorem step_updatedStamped (env : Env) (st : State) (call : Call)
    (hst : ∀ o ∈ st.orders, Order.UpdatedStamped env st.ticks o) :
    ∀ o ∈ (step env st call).orders,
      Order.UpdatedStamped env (step env st call).ticks o := by
  have hle := step_ticks_le env st call
  refine Frame.forall_mem (step_frame_updated env st call hst)
    (Order.UpdatedStamped env st.ticks) (Order.UpdatedStamped env (step env st call).ticks)
    hst ?_ ?_ ?_
  · rintro o o' ⟨-, hu⟩ ⟨j, hj, huj⟩
    rcases hu with hu | ⟨hu, hlt⟩
    · exact ⟨j, Nat.lt_of_lt_of_le hj hle, hu.trans huj⟩
    · exact ⟨st.ticks, hlt, hu⟩
  · rintro o ⟨j, hj, huj⟩
    exact ⟨j, Nat.lt_of_lt_of_le hj hle, huj⟩
  · intro d o hcall ho
    subst hcall
    have ho' : st.orders ++ [(Order.create env st d).2] = st.orders ++ [o] := ho
    have hoeq : o = (Order.create env st d).2 := by
      have := List.append_cancel_left ho'
      simpa using this.symm
    subst hoeq
    exact ⟨st.ticks + 1, Nat.lt_succ_self _, rfl⟩

theorem run_updatedStamped (env : Env) (calls : List Call) :
    ∀ o ∈ (run env calls).orders, Order.UpdatedStamped env (run env calls).ticks o :=
  run_invariant env (fun st => ∀ o ∈ st.orders, Order.UpdatedStamped env st.ticks o)
    (fun _ => True)
    (fun o ho => by simp [State.empty] at ho)
    (fun st call hst _ => step_updatedStamped env st call hst) calls (fun _ _ => trivial)

/-- The clock of the reference platform: its `k`-th reading is `min k 9` milliseconds
after midnight, so it never goes back. -/
theorem refEnv_now_time (k : Nat) :
    refEnv.timeValue (.str (refEnv.now k)) = some (1704067200000 + (min k 9 : Nat)) := by
  have hnow : refEnv.now k = "2024-01-01T00:00:00.00" ++ toString (min k 9) ++ "Z" := rfl
  rw [hnow]
  have hm : min k 9 ≤ 9 := Nat.min_le_right k 9
  generalize min k 9 = m at hm
  interval_cases m <;> rfl

theorem refEnv_clock (i j : Nat) (hij : i ≤ j) :
    Order.TimeLE refEnv (.str (refEnv.now i)) (.str (refEnv.now j)) := by
  refine ⟨_, _, refEnv_now_time i, refEnv_now_time j, ?_⟩
  have : min i 9 ≤ min j 9 := by omega
  omega

/-- C9, counterexample. On a clock that never goes back, creating an order and then
updating it with a patch that names `createdAt` leaves an order whose `createdAt` is
no longer the value assigned at creation and is later than its `updatedAt`. -/
theorem createdAt_patch_counterexample :
    (∀ i j, i ≤ j → Order.TimeLE refEnv (.str (refEnv.now i)) (.str (refEnv.now j))) ∧
    (run refEnv [.create (sampleData 1)]).orders.map (fun o => o.get "createdAt")
      = [.str "2024-01-01T00:00:00.000Z"] ∧
    (run refEnv [.create (sampleData 1), .update (.str "order-0") createdAtPatch]).orders.map
      (fun o => (o.get "createdAt", o.get "updatedAt"))
      = [(.str "2030-01-01T00:00:00.000Z", .str "2024-01-01T00:00:00.002Z")] ∧
    ¬ Order.TimeLE refEnv (.str "2030-01-01T00:00:00.000Z")
      (.str "2024-01-01T00:00:00.002Z") := by
  refine ⟨refEnv_clock, rfl, rfl, ?_⟩
  rintro ⟨ta, tb, hta, htb, hle⟩
  have hta' : ta = 1893456000000 := (Option.some.inj hta).symm
  have htb' : tb = 1704067200002 := (Option.some.inj htb).symm
  omega

/-- C9, amended. Under a non-decreasing clock, in every state reached from the empty
store: no call ever decreases the `updatedAt` of an order that stays, whatever the
patches; a call whose patch does not name `createdAt` leaves the `createdAt` of every
order that stays as it was; and when no patch so far has named `createdAt`, every
stored order still has the `createdAt` read from the clock at its creation and an
`updatedAt` not earlier than it. -/
theorem timestamps_invariant (env : Env) (calls : List Call) (call : Call)
    (hclock : ∀ i j, i ≤ j → Order.TimeLE env (.str (env.now i)) (.str (env.now j))) :
    Frame (fun o o' => Order.TimeLE env (o.get "updatedAt") (o'.get "updatedAt"))
      call (run env calls).orders (run env (calls ++ [call])).orders ∧
    ("createdAt" ∉ call.patchKeys →
      Frame (fun o o' => o'.get "createdAt" = o.get "createdAt")
        call (run env calls).orders (run env (calls ++ [call])).orders) ∧
    ((∀ c ∈ calls, "createdAt" ∉ c.patchKeys) →
      ∀ o ∈ (run env calls).orders,
        Order.Stamped env (run env calls).ticks o ∧
        Order.TimeLE env (o.get "createdAt") (o.get "updatedAt")) := by
  refine ⟨?_, ?_, ?_⟩
  · rw [run_append]
    refine Frame.mono ?_ (step_frame_updated env (run env calls) call
      (run_updatedStamped env calls))
    rintro o o' ⟨⟨j, hj, huj⟩, hu⟩
    rcases hu with hu | ⟨hu, -⟩
    · rw [hu, huj]
      exact hclock j j (Nat.le_refl _)
    · rw [hu, huj]
      exact hclock j _ (Nat.le_of_lt hj)
  · intro hcall
    rw [run_append]
    apply step_frame
    · intro o _
      rfl
    · intro id p hc _ old _
      subst hc
      have hk : "createdAt" ∉ p.keys := hcall
      rw [Order.get_merged, if_neg (by decide), if_neg hk]
    · intro id s _ _ old _
      rw [Obj.get_set, if_neg (by decide), Obj.get_set, if_neg (by decide)]
  · intro hcalls o ho
    have hst := run_stamped env calls hcalls o ho
    refine ⟨hst, ?_⟩
    obtain ⟨i, j, hij, -, hc, hu⟩ := hst
    rw [hc, hu]
    exact hclock i j hij

theorem timestamps_invariant_witness :
    (∀ i j, i ≤ j → Order.TimeLE refEnv (.str (refEnv.now i)) (.str (refEnv.now j))) ∧
    Frame (fun o o' => Order.TimeLE refEnv (o.get "updatedAt") (o'.get "updatedAt"))
      (Call.update (.str "order-0") createdAtPatch)
      (run refEnv [Call.create (sampleData 1), Call.updateStatus (.str "order-0")
        (.str "shipped")]).orders
      (run refEnv ([Call.create (sampleData 1), Call.updateStatus (.str "order-0")
        (.str "shipped")] ++ [Call.update (.str "order-0") createdAtPatch])).orders ∧
    Frame (fun o o' => o'.get "createdAt" = o.get "createdAt")
      (Call.update (.str "order-0") statusPatch)
      (run refEnv [Call.create (sampleData 1)]).orders
      (run refEnv ([Call.create (sampleData 1)]
        ++ [Call.update (.str "order-0") statusPatch])).orders ∧
    (∀ o ∈ (run refEnv [Call.create (sampleData 1), Call.updateStatus (.str "order-0")
        (.str "shipped")]).orders,
      Order.Stamped refEnv (run refEnv [Call.create (sampleData 1),
        Call.updateStatus (.str "order-0") (.str "shipped")]).ticks o ∧
      Order.TimeLE refEnv (o.get "createdAt") (o.get "updatedAt")) :=
  have h := timestamps_invariant refEnv
    [Call.create (sampleData 1), Call.updateStatus (.str "order-0") (.str "shipped")]
    (Call.update (.str "order-0") createdAtPatch) refEnv_clock
  have h' := timestamps_invariant refEnv [Call.create (sampleData 1)]
    (Call.update (.str "order-0") statusPatch) refEnv_clock
  ⟨refEnv_clock, h.1, h'.2.1 (by decide), h.2.2 (by
    intro c hc
    simp only [List.mem_cons, List.mem_singleton, List.not_mem_nil, or_false] at hc
    rcases hc with rfl | rfl <;> decide)⟩

/-! ## Identifiers along a sequence of calls -/

theorem refEnv_uuidv4_injective : Function.Injective refEnv.uuidv4 := by
  intro a b h
  have hdata : ("order-" ++ toString a : String).data = ("order-" ++ toString b : String).data :=
    congrArg String.data h
  have hdigits : Nat.toDigits 10 a = Nat.toDigits 10 b := by
    have h' : "order-".data ++ Nat.toDigits 10 a = "order-".data ++ Nat.toDigits 10 b := hdata
    exact List.append_cancel_left h'
  have hparse := congrArg (fun l => parseDigits 10 l none) hdigits
  simp only [parseDigits_toDigits] at hparse
  exact Option.some.inj hparse

/-- One call whose patch does not name `id` leaves the id of every order that stays. -/
theorem step_frame_ids (env : Env) (st : State) (call : Call)
    (hpatch : "id" ∉ call.patchKeys) :
    Frame (fun o o' => o'.get "id" = o.get "id") call st.orders (step env st call).orders := by
  apply step_frame
  · intro o _
    rfl
  · intro id p hcall _ old _
    subst hcall
    have hk : "id" ∉ p.keys := hpatch
    rw [Order.get_merged, if_neg (by decide), if_neg hk]
  · intro id s hcall _ old _
    rw [Obj.get_set, if_neg (by decide), Obj.get_set, if_neg (by decide)]

theorem step_uuids_le (env : Env) (st : State) (call : Call) :
    st.uuids ≤ (step env st call).uuids := by
  cases call with
  | findAll => exact Nat.le_refl _
  | findById id => exact Nat.le_refl _
  | findByUserId u => exact Nat.le_refl _
  | create d => exact Nat.le_succ _
  | update id p =>
    show st.uuids ≤ (Order.update env st id p).1.uuids
    unfold Order.update
    split <;> exact Nat.le_refl _
  | delete id =>
    show st.uuids ≤ (Order.delete st id).1.uuids
    unfold Order.delete
    split <;> exact Nat.le_refl _
  | updateStatus id s =>
    show st.uuids ≤ (Order.updateStatus env st id s).1.uuids
    unfold Order.updateStatus
    split <;> exact Nat.le_refl _

theorem step_identified (env : Env) (st : State) (call : Call)
    (hst : ∀ o ∈ st.orders, Order.Identified env st.uuids o)
    (hpatch : "id" ∉ call.patchKeys) :
    ∀ o ∈ (step env st call).orders, Order.Identified env (step env st call).uuids o := by
  have hle := step_uuids_le env st call
  refine Frame.forall_mem (step_frame_ids env st call hpatch)
    (Order.Identified env st.uuids) (Order.Identified env (step env st call).uuids) hst ?_ ?_ ?_
  · rintro o o' hid ⟨k, hk, hok⟩
    exact ⟨k, Nat.lt_of_lt_of_le hk hle, hid.trans hok⟩
  · rintro o ⟨k, hk, hok⟩
    exact ⟨k, Nat.lt_of_lt_of_le hk hle, hok⟩
  · intro d o hcall ho
    subst hcall
    have ho' : st.orders ++ [(Order.create env st d).2] = st.orders ++ [o] := ho
    have hoeq : o = (Order.create env st d).2 := by
      have := List.append_cancel_left ho'
      simpa using this.symm
    subst hoeq
    exact ⟨st.uuids, Nat.lt_succ_self _, rfl⟩

theorem step_ids_nodup (env : Env) (st : State) (call : Call)
    (huniq : Function.Injective env.uuidv4)
    (hst : ∀ o ∈ st.orders, Order.Identified env st.uuids o)
    (hnodup : (st.orders.map (fun o => o.get "id")).Nodup)
    (hpatch : "id" ∉ call.patchKeys) :
    ((step env st call).orders.map (fun o => o.get "id")).Nodup := by
  have hframe := step_frame_ids env st call hpatch
  cases call with
  | findAll =>
    have hperm : (step env st .findAll).orders.Perm st.orders := hframe
    exact (List.Perm.nodup_iff (hperm.map _)).mpr hnodup
  | findById id => exact hnodup
  | findByUserId u => exact hnodup
  | create d =>
    show ((st.orders ++ [(Order.create env st d).2]).map (fun o => o.get "id")).Nodup
    rw [List.map_append, List.nodup_append]
    refine ⟨hnodup, List.nodup_singleton _, ?_⟩
    intro v hv hv'
    rw [List.map_singleton, List.mem_singleton] at hv'
    obtain ⟨o, ho, hov⟩ := List.mem_map.mp hv
    obtain ⟨k, hk, hok⟩ := hst o ho
    have heq : JSValue.str (env.uuidv4 k) = JSValue.str (env.uuidv4 st.uuids) := by
      rw [← hok, hov, hv']
      rfl
    have := huniq (JSValue.str.inj heq)
    omega
  | update id p =>
    have hmap := forall₂_map_eq (fun o => o.get "id") hframe
    rw [hmap]
    exact hnodup
  | delete id =>
    obtain ⟨i, hi⟩ := hframe
    rw [hi]
    exact hnodup.sublist ((List.eraseIdx_sublist st.orders i).map _)
  | updateStatus id s =>
    have hmap := forall₂_map_eq (fun o => o.get "id") hframe
    rw [hmap]
    exact hnodup

theorem run_ids (env : Env) (huniq : Function.Injective env.uuidv4) (calls : List Call)
    (hpatch : ∀ c ∈ calls, "id" ∉ c.patchKeys) :
    (∀ o ∈ (run env calls).orders, Order.Identified env (run env calls).uuids o) ∧
    ((run env calls).orders.map (fun o => o.get "id")).Nodup :=
  run_invariant env
    (fun st => (∀ o ∈ st.orders, Order.Identified env st.uuids o) ∧
      (st.orders.map (fun o => o.get "id")).Nodup)
    (fun c => "id" ∉ c.patchKeys)
    ⟨fun o ho => by simp [State.empty] at ho, by simp [State.empty]⟩
    (fun st call hst hok =>
      ⟨step_identified env st call hst.1 hok, step_ids_nodup env st call huniq hst.1 hst.2 hok⟩)
    calls hpatch

/-- C10, counterexample. With identifiers that are never generated twice, creating
two orders and then updating the second with a patch that names `id` leaves two
stored orders with the same id: the update has changed the id of a stored order. -/
theorem id_patch_counterexample :
    Function.Injective refEnv.uuidv4 ∧
    (run refEnv [.create (sampleData 1), .create (sampleData 1)]).orders.map
      (fun o => o.get "id") = [.str "order-0", .str "order-1"] ∧
    (run refEnv [.create (sampleData 1), .create (sampleData 1),
      .update (.str "order-1") idPatch]).orders.map
      (fun o => o.get "id") = [.str "order-0", .str "order-0"] ∧
    ¬ ((run refEnv [.create (sampleData 1), .create (sampleData 1),
      .update (.str "order-1") idPatch]).orders.map (fun o => o.get "id")).Nodup := by
  refine ⟨refEnv_uuidv4_injective, rfl, rfl, ?_⟩
  have h : (run refEnv [.create (sampleData 1), .create (sampleData 1),
      .update (.str "order-1") idPatch]).orders.map
      (fun o => o.get "id") = [.str "order-0", .str "order-0"] := rfl
  rw [h]
  simp

/-- C10, amended. When no identifier is generated twice, in every state reached from
the empty store by calls whose patches do not name `id` the ids of the stored orders
are pairwise distinct, and a further such call leaves the id of every order that
stays as it was. -/
theorem ids_invariant (env : Env) (calls : List Call) (call : Call)
    (huniq : Function.Injective env.uuidv4)
    (hpatch : ∀ c ∈ calls ++ [call], "id" ∉ c.patchKeys) :
    ((run env (calls ++ [call])).orders.map (fun o => o.get "id")).Nodup ∧
    Frame (fun o o' => o'.get "id" = o.get "id")
      call (run env calls).orders (run env (calls ++ [call])).orders := by
  refine ⟨(run_ids env huniq (calls ++ [call]) hpatch).2, ?_⟩
  rw [run_append]
  exact step_frame_ids env (run env calls) call
    (hpatch call (List.mem_append_right _ (List.mem_singleton_self call)))

theorem ids_invariant_witness :
    Function.Injective refEnv.uuidv4 ∧
    (∀ c ∈ [Call.create (sampleData 1), Call.create (sampleData 2)]
      ++ [Call.update (.str "order-1") statusPatch], "id" ∉ c.patchKeys) ∧
    ((run refEnv ([Call.create (sampleData 1), Call.create (sampleData 2)]
      ++ [Call.update (.str "order-1") statusPatch])).orders.map
      (fun o => o.get "id")).Nodup ∧
    Frame (fun o o' => o'.get "id" = o.get "id")
      (Call.update (.str "order-1") statusPatch)
      (run refEnv [Call.create (sampleData 1), Call.create (sampleData 2)]).orders
      (run refEnv ([Call.create (sampleData 1), Call.create (sampleData 2)]
        ++ [Call.update (.str "order-1") statusPatch])).orders :=
  have hpatch : ∀ c ∈ [Call.create (sampleData 1), Call.create (sampleData 2)]
      ++ [Call.update (.str "order-1") statusPatch], "id" ∉ c.patchKeys := by
    intro c hc
    simp only [List.cons_append, List.nil_append, List.mem_cons, List.mem_singleton,
      List.not_mem_nil, or_false] at hc
    rcases hc with rfl | rfl | rfl <;> decide
  ⟨refEnv_uuidv4_injective, hpatch,
    ids_invariant refEnv _ _ refEnv_uuidv4_injective hpatch⟩

/-! ## Deleting, and looking up an id that is not stored -/

theorem strictEq_eq (a b : JSValue) (h : a.strictEq b = true) : a = b := by
  cases a <;> cases b <;> simp_all [JSValue.strictEq]

theorem Order.delete_found (st : State) (id : JSValue) (i : Nat)
    (hidx : Order.findIndex st id = some i) :
    Order.delete st id = ({ st with orders := st.orders.eraseIdx i }, true) := by
  simp only [Order.delete, hidx]

theorem Order.findIndex_none (st : State) (id : JSValue)
    (h : ∀ o ∈ st.orders, (o.get "id").strictEq id = false) :
    Order.findIndex st id = none :=
  List.findIdx?_eq_none_iff.mpr h

/-- In a list whose keys are pairwise distinct, the elements left after one position
is erased all have a key different from the key of the element erased. -/
theorem key_ne_of_mem_eraseIdx {β : Type} (f : Obj → β) (l : List Obj) :
    ∀ (i : Nat) (a : Obj), (l.map f).Nodup → l[i]? = some a →
      ∀ o ∈ l.eraseIdx i, f o ≠ f a := by
  induction l with
  | nil => intro i a _ ha; simp at ha
  | cons x xs ih =>
    intro i a hnd ha o ho
    rw [List.map_cons, List.nodup_cons] at hnd
    cases i with
    | zero =>
      simp only [List.getElem?_cons_zero, Option.some.injEq] at ha
      subst ha
      simp only [List.eraseIdx_zero, List.tail_cons] at ho
      intro e
      exact hnd.1 (e ▸ List.mem_map_of_mem f ho)
    | succ i =>
      simp only [List.getElem?_cons_succ] at ha
      simp only [List.eraseIdx_cons_succ, List.mem_cons] at ho
      rcases ho with rfl | ho
      · intro e
        exact hnd.1 (e ▸ List.mem_map_of_mem f (List.getElem?_mem ha))
      · exact ih i a hnd.2 ha o ho

/-- C11. In a store whose order ids are pairwise distinct, `Order.delete(id)` for an
id that is present returns `true`, leaves a store with exactly one order less, and
`Order.findById(id)` called afterwards finds nothing. -/
theorem delete_then_findById (st : State) (id : JSValue)
    (hdistinct : (st.orders.map (fun o => o.get "id")).Nodup)
    (hpresent : Order.findById st id ≠ none) :
    (Order.delete st id).2 = true ∧
    (Order.delete st id).1.orders.length + 1 = st.orders.length ∧
    Order.findById (Order.delete st id).1 id = none := by
  obtain ⟨old, hold⟩ := Option.ne_none_iff_exists'.mp hpresent
  obtain ⟨i, hi, hget⟩ := find?_findIdx? _ st.orders old hold
  have hlt : i < st.orders.length := (List.getElem?_eq_some_iff.mp hget).1
  have hold' : st.orders.find? (fun order => (order.get "id").strictEq id) = some old := hold
  have hmatch := List.find?_some hold'
  simp only at hmatch
  rw [Order.delete_found st id i hi]
  refine ⟨rfl, ?_, ?_⟩
  · show (st.orders.eraseIdx i).length + 1 = st.orders.length
    rw [List.length_eraseIdx_of_lt hlt]
    omega
  · show (st.orders.eraseIdx i).find? _ = none
    rw [List.find?_eq_none]
    intro o ho hEq
    have h1 : o.get "id" = id := strictEq_eq _ _ (by simpa using hEq)
    have h2 : old.get "id" = id := strictEq_eq _ _ hmatch
    exact key_ne_of_mem_eraseIdx (fun o => o.get "id") st.orders i old hdistinct hget o ho
      (h1.trans h2.symm)

theorem delete_then_findById_witness :
    (twoOrders.orders.map (fun o => o.get "id")).Nodup ∧
    Order.findById twoOrders (.str "order-0") ≠ none ∧
    (Order.delete twoOrders (.str "order-0")).2 = true ∧
    (Order.delete twoOrders (.str "order-0")).1.orders.length + 1 = twoOrders.orders.length ∧
    Order.findById (Order.delete twoOrders (.str "order-0")).1 (.str "order-0") = none :=
  have hnd : (twoOrders.orders.map (fun o => o.get "id")).Nodup := by
    have h : twoOrders.orders.map (fun o => o.get "id") = [.str "order-0", .str "order-1"] := rfl
    rw [h]
    simp
  have hpresent : Order.findById twoOrders (.str "order-0") ≠ none := by
    intro e
    have e' : some (Order.newOrder "order-0" "2024-01-01T00:00:00.000Z"
        "2024-01-01T00:00:00.001Z" (sampleData 1)) = none := e
    exact Option.noConfusion e'
  ⟨hnd, hpresent, delete_then_findById twoOrders (.str "order-0") hnd hpresent⟩

/-- C12. For an id that matches no stored order, `Order.findById` finds nothing,
`Order.update` and `Order.updateStatus` return `null`, `Order.delete` returns
`false`, and each of them leaves the module state, the collection included, exactly
as it was. -/
theorem unknown_id_sentinels (env : Env) (st : State) (id : JSValue) (p : Obj) (s : JSValue)
    (habsent : ∀ o ∈ st.orders, (o.get "id").strictEq id = false) :
    Order.findById st id = none ∧
    Order.update env st id p = (st, none) ∧
    Order.updateStatus env st id s = (st, none) ∧
    Order.delete st id = (st, false) := by
  have hidx := Order.findIndex_none st id habsent
  refine ⟨?_, ?_, ?_, ?_⟩
  · exact List.find?_eq_none.mpr (fun o ho => by simp [habsent o ho])
  · simp only [Order.update, hidx]
  · simp only [Order.updateStatus, hidx]
  · simp only [Order.delete, hidx]

theorem unknown_id_sentinels_witness :
    (∀ o ∈ oneOrder.orders, (o.get "id").strictEq (.str "order-9") = false) ∧
    Order.findById oneOrder (.str "order-9") = none ∧
    Order.update refEnv oneOrder (.str "order-9") statusPatch = (oneOrder, none) ∧
    Order.updateStatus refEnv oneOrder (.str "order-9") (.str "shipped") = (oneOrder, none) ∧
    Order.delete oneOrder (.str "order-9") = (oneOrder, false) :=
  have h : ∀ o ∈ oneOrder.orders, (o.get "id").strictEq (.str "order-9") = false := by
    intro o ho
    have ho' : o ∈ [Order.newOrder "order-0" "2024-01-01T00:00:00.000Z"
        "2024-01-01T00:00:00.001Z" (sampleData 1)] := ho
    rw [List.mem_singleton] at ho'
    subst ho'
    rfl
  ⟨h, unknown_id_sentinels refEnv oneOrder (.str "order-9") statusPatch (.str "shipped") h⟩

/-! ## The first order with a given id -/

/-- What `findIndex` finds: the order at the index has the id, no earlier order
has it. -/
theorem Order.findIndex_first (st : State) (id : JSValue) (i : Nat)
    (h : Order.findIndex st id = some i) :
    (∃ o, st.orders[i]? = some o ∧ (o.get "id").strictEq id = true) ∧
    ∀ j o, j < i → st.orders[j]? = some o → (o.get "id").strictEq id = false := by
  obtain ⟨hlt, hp, hbefore⟩ := List.findIdx?_eq_some_iff_getElem.mp h
  refine ⟨⟨st.orders[i], List.getElem?_eq_getElem hlt, hp⟩, ?_⟩
  intro j o hj hjo
  obtain ⟨hjlt, hjeq⟩ := List.getElem?_eq_some_iff.mp hjo
  have := hbefore j hj
  rw [hjeq] at this
  simpa using this

/-- Writing, at the index found for an id, an order with the same id leaves that
index the one found for the id. -/
theorem Order.findIndex_set (st : State) (id : JSValue) (i : Nat) (old new : Obj)
    (ticks : Nat) (h : Order.findIndex st id = some i) (hold : st.orders[i]? = some old)
    (hid : new.get "id" = old.get "id") :
    Order.findIndex { st with orders := st.orders.set i new, ticks := ticks } id = some i := by
  obtain ⟨hlt, hp, hbefore⟩ := List.findIdx?_eq_some_iff_getElem.mp h
  have holdeq : st.orders[i] = old := (List.getElem?_eq_some_iff.mp hold).2
  refine List.findIdx?_eq_some_iff_getElem.mpr ⟨by simpa using hlt, ?_, ?_⟩
  · simp only [List.getElem_set_self, hid]
    rw [← holdeq]
    exact hp
  · intro j hj
    have hne : i ≠ j := Nat.ne_of_gt hj
    simp only [List.getElem_set_ne hne]
    exact hbefore j hj

/-- C13. For an id present in the store and any status value `s`,
`Order.updateStatus(id, s)` returns, and stores in place of the first order with
that id, that order with `status` equal to `s`, `updatedAt` equal to the clock
reading and every other field unchanged; and a further `Order.updateStatus` on the
same id, with any status, succeeds as well - so `pending`, then `delivered`, then
`pending` again succeeds both times. -/
theorem updateStatus_sets (env : Env) (st : State) (id s : JSValue) (old : Obj)
    (hfound : Order.findById st id = some old) :
    ∃ i o, Order.findIndex st id = some i ∧ st.orders[i]? = some old ∧
      (Order.updateStatus env st id s).2 = some o ∧
      (Order.updateStatus env st id s).1.orders = st.orders.set i o ∧
      o.get "status" = s ∧
      o.get "updatedAt" = .str (env.now st.ticks) ∧
      (∀ k, k ≠ "status" → k ≠ "updatedAt" → o.get k = old.get k) ∧
      ∀ s₂, ∃ o₂, (Order.updateStatus env (Order.updateStatus env st id s).1 id s₂).2 = some o₂ ∧
        o₂.get "status" = s₂ := by
  obtain ⟨i, hi, hold⟩ := find?_findIdx? _ st.orders old hfound
  have hidx : Order.findIndex st id = some i := hi
  have hlt : i < st.orders.length := (List.getElem?_eq_some_iff.mp hold).1
  have hupd := Order.updateStatus_found env st id s old i hidx hold
  refine ⟨i, _, hidx, hold, by rw [hupd], by rw [hupd], ?_, ?_, ?_, ?_⟩
  · rw [Obj.get_set, if_neg (by decide), Obj.get_set, if_pos rfl]
  · rw [Obj.get_set, if_pos rfl]
  · intro k hk hk'
    rw [Obj.get_set, if_neg hk', Obj.get_set, if_neg hk]
  · intro s₂
    rw [hupd]
    have hid : ((old.set "status" s).set "updatedAt" (JSValue.str (env.now st.ticks))).get "id"
        = old.get "id" := by
      rw [Obj.get_set, if_neg (by decide), Obj.get_set, if_neg (by decide)]
    have hidx' := Order.findIndex_set st id i old _ (st.ticks + 1) hidx hold hid
    have hget' : (st.orders.set i
        ((old.set "status" s).set "updatedAt" (JSValue.str (env.now st.ticks))))[i]?
        = some ((old.set "status" s).set "updatedAt" (JSValue.str (env.now st.ticks))) := by
      simp [hlt]
    have hupd' := Order.updateStatus_found env _ id s₂ _ i hidx' hget'
    refine ⟨_, congrArg Prod.snd hupd', ?_⟩
    rw [Obj.get_set, if_neg (by decide), Obj.get_set, if_pos rfl]

theorem updateStatus_sets_witness :
    Order.findById oneOrder (.str "order-0") = some (Order.newOrder "order-0"
      "2024-01-01T00:00:00.000Z" "2024-01-01T00:00:00.001Z" (sampleData 1)) ∧
    ∃ i o, Order.findIndex oneOrder (.str "order-0") = some i ∧
      oneOrder.orders[i]? = some (Order.newOrder "order-0"
        "2024-01-01T00:00:00.000Z" "2024-01-01T00:00:00.001Z" (sampleData 1)) ∧
      (Order.updateStatus refEnv oneOrder (.str "order-0") (.str "delivered")).2 = some o ∧
      (Order.updateStatus refEnv oneOrder (.str "order-0") (.str "delivered")).1.orders
        = oneOrder.orders.set i o ∧
      o.get "status" = .str "delivered" ∧
      o.get "updatedAt" = .str (refEnv.now oneOrder.ticks) ∧
      (∀ k, k ≠ "status" → k ≠ "updatedAt" → o.get k = (Order.newOrder "order-0"
        "2024-01-01T00:00:00.000Z" "2024-01-01T00:00:00.001Z" (sampleData 1)).get k) ∧
      ∀ s₂, ∃ o₂, (Order.updateStatus refEnv
          (Order.updateStatus refEnv oneOrder (.str "order-0") (.str "delivered")).1
          (.str "order-0") s₂).2 = some o₂ ∧
        o₂.get "status" = s₂ :=
  ⟨rfl, updateStatus_sets refEnv oneOrder (.str "order-0") (.str "delivered") _ rfl⟩

/-! ## Seeding the store -/

theorem Order.initSampleData_empty (env : Env) (st : State) (h : st.orders = []) :
    Order.initSampleData env st =
      (Order.create env (Order.create env st
        [ ("userId", .num 1),
          ("items", .arr [.obj [("productId", .str "PROD-001"), ("productName", .str "Laptop"),
            ("quantity", .num 1), ("price", .real "999.99")]]),
          ("totalAmount", .real "999.99"),
          ("status", .str "delivered"),
          ("shippingAddress", Order.sampleAddress) ]).1
        [ ("userId", .num 1),
          ("items", .arr [
            .obj [("productId", .str "PROD-002"), ("productName", .str "Mouse"),
              ("quantity", .num 2), ("price", .real "29.99")],
            .obj [("productId", .str "PROD-003"), ("productName", .str "Keyboard"),
              ("quantity", .num 1), ("price", .real "79.99")]]),
          ("totalAmount", .real "139.97"),
          ("status", .str "processing"),
          ("shippingAddress", Order.sampleAddress) ]).1 := by
  simp [Order.initSampleData, h, Order.sampleOrders]

theorem Order.initSampleData_nonempty (env : Env) (st : State) (h : st.orders ≠ []) :
    Order.initSampleData env st = st := by
  have hlen : st.orders.length ≠ 0 := fun e => h (List.length_eq_zero.mp e)
  simp [Order.initSampleData, hlen]

/-- C14. `Order.initSampleData()` on an empty store leaves exactly the two sample
orders, created one after the other: both of user 1, the first `delivered`, the
second `processing`. On a store that is not empty it changes nothing. Calling it
twice in a row gives the same state as calling it once. -/
theorem initSampleData_seeds_once (env : Env) (st : State) :
    (st.orders = [] →
      (∃ d₁ d₂, Order.sampleOrders = [d₁, d₂] ∧
        (Order.initSampleData env st).orders =
          [ Order.newOrder (env.uuidv4 st.uuids) (env.now st.ticks) (env.now (st.ticks + 1)) d₁,
            Order.newOrder (env.uuidv4 (st.uuids + 1)) (env.now (st.ticks + 2))
              (env.now (st.ticks + 3)) d₂ ]) ∧
      (Order.initSampleData env st).orders.map (fun o => o.get "userId") = [.num 1, .num 1] ∧
      (Order.initSampleData env st).orders.map (fun o => o.get "status")
        = [.str "delivered", .str "processing"]) ∧
    (st.orders ≠ [] → Order.initSampleData env st = st) ∧
    Order.initSampleData env (Order.initSampleData env st) = Order.initSampleData env st := by
  refine ⟨?_, Order.initSampleData_nonempty env st, ?_⟩
  · intro h
    rw [Order.initSampleData_empty env st h]
    have horders : ∀ d₁ d₂ : Obj, (Order.create env (Order.create env st d₁).1 d₂).1.orders =
        [ Order.newOrder (env.uuidv4 st.uuids) (env.now st.ticks) (env.now (st.ticks + 1)) d₁,
          Order.newOrder (env.uuidv4 (st.uuids + 1)) (env.now (st.ticks + 2))
            (env.now (st.ticks + 3)) d₂ ] := by
      intro d₁ d₂
      simp [Order.create, h]
    refine ⟨⟨_, _, rfl, horders _ _⟩, ?_, ?_⟩
    · rw [horders]
      rfl
    · rw [horders]
      rfl
  · by_cases h : st.orders = []
    · apply Order.initSampleData_nonempty
      rw [Order.initSampleData_empty env st h]
      simp [Order.create]
    · rw [Order.initSampleData_nonempty env st h, Order.initSampleData_nonempty env st h]

theorem initSampleData_seeds_once_witness :
    (Order.initSampleData refEnv State.empty).orders.map (fun o => o.get "status")
      = [.str "delivered", .str "processing"] ∧
    Order.initSampleData refEnv (Order.initSampleData refEnv State.empty)
      = Order.initSampleData refEnv State.empty :=
  ⟨((initSampleData_seeds_once refEnv State.empty).1 rfl).2.2,
    (initSampleData_seeds_once refEnv State.empty).2.2⟩

/-! ## The routes -/

/-- C15, counterexample. For an id that matches no stored order the handler of
`GET /api/orders/{id}` answers 404 with the body `{ error: 'Order not found' }`,
which has no `message` field. -/
theorem getOrder_message_counterexample :
    Order.findById oneOrder (.str "order-9") = none ∧
    (Route.getOrder oneOrder "order-9").status = 404 ∧
    (Route.getOrder oneOrder "order-9").body = .obj [("error", .str "Order not found")] ∧
    "message" ∉ (Route.getOrder oneOrder "order-9").body.fields.keys := by
  refine ⟨rfl, rfl, rfl, ?_⟩
  have h : (Route.getOrder oneOrder "order-9").body.fields.keys = ["error"] := rfl
  rw [h]
  decide

/-- C15, amended. For an id that matches no stored order the handler of
`GET /api/orders/{id}` answers 404 with an error body whose only field is `error`,
holding the text `Order not found`; for an id that is stored it answers 200 with
the first order that has the id. -/
theorem getOrder_response (st : State) (id : String) :
    (Order.findById st (.str id) = none →
      Route.getOrder st id = ⟨404, .obj [("error", .str "Order not found")]⟩) ∧
    (∀ o, Order.findById st (.str id) = some o → Route.getOrder st id = ⟨200, .obj o⟩) := by
  constructor
  · intro h
    simp [Route.getOrder, h, JSValue.ofResult, JSValue.truthy]
  · intro o h
    simp [Route.getOrder, h, JSValue.ofResult, JSValue.truthy]

/-- C16. When `userId`, `items` or `totalAmount` is missing from the body, or `items`
is not an array or is the empty array, the handler of `POST /api/orders` answers 400
and leaves the module state as it was: `Order.create` is not called. -/
theorem postOrder_invalid (env : Env) (st : State) (body : Obj)
    (hinvalid : body.get "userId" = .undefined ∨ body.get "items" = .undefined ∨
      body.get "totalAmount" = .undefined ∨ (body.get "items").isArray = false ∨
      body.get "items" = .arr []) :
    (Route.postOrder env st body).2.status = 400 ∧
    (Route.postOrder env st body).1 = st := by
  have hcond : (!(body.get "userId").truthy || !(body.get "items").truthy
      || !(body.get "items").isArray || (body.get "items").arrayLength == 0
      || !(body.get "totalAmount").truthy) = true := by
    rcases hinvalid with h | h | h | h | h
    · simp [h, JSValue.truthy]
    · simp [h, JSValue.truthy]
    · simp [h, JSValue.truthy]
    · simp [h]
    · simp [h, JSValue.arrayLength]
  simp only [Route.postOrder, hcond, if_true, and_self]

theorem postOrder_invalid_witness :
    (Obj.get [("userId", .num 1), ("totalAmount", .num 20)] "userId" = .undefined ∨
      Obj.get [("userId", .num 1), ("totalAmount", .num 20)] "items" = .undefined ∨
      Obj.get [("userId", .num 1), ("totalAmount", .num 20)] "totalAmount" = .undefined ∨
      (Obj.get [("userId", .num 1), ("totalAmount", .num 20)] "items").isArray = false ∨
      Obj.get [("userId", .num 1), ("totalAmount", .num 20)] "items" = .arr []) ∧
    (Route.postOrder refEnv oneOrder [("userId", .num 1), ("totalAmount", .num 20)]).2.status
      = 400 ∧
    (Route.postOrder refEnv oneOrder [("userId", .num 1), ("totalAmount", .num 20)]).1
      = oneOrder :=
  ⟨Or.inr (Or.inl rfl),
    postOrder_invalid refEnv oneOrder [("userId", .num 1), ("totalAmount", .num 20)]
      (Or.inr (Or.inl rfl))⟩

theorem JSValue.truthy_undefined : JSValue.undefined.truthy = false := rfl

theorem JSValue.truthy_obj (o : Obj) : (JSValue.obj o).truthy = true := rfl

/-- C17, counterexample. A body whose `status` is present but is the empty string is
answered 400 by the handler of `PATCH /api/orders/{id}/status`, although the id is
stored: not 200 with the updated order. -/
theorem patchStatus_falsy_counterexample :
    "status" ∈ emptyStatusBody.keys ∧
    Order.findById oneOrder (.str "order-0") ≠ none ∧
    Route.patchStatus refEnv oneOrder "order-0" emptyStatusBody
      = (oneOrder, ⟨400, .obj [("error", .str "Status is required")]⟩) := by
  refine ⟨by decide, ?_, rfl⟩
  intro e
  have e' : some (Order.newOrder "order-0" "2024-01-01T00:00:00.000Z"
      "2024-01-01T00:00:00.001Z" (sampleData 1)) = none := e
  exact Option.noConfusion e'

/-- C17, amended. For every store state and every order id, the handler of
`PATCH /api/orders/{id}/status` answers 400 and leaves the state as it was when the
body has no truthy `status` (none at all, or a falsy one such as the empty string);
with a truthy status it answers 404, the state unchanged, when the id is absent,
and otherwise 200 with the order `Order.updateStatus` returns, whose status is the
one sent. -/
theorem patchStatus_response (env : Env) (st : State) (id : String) (body : Obj) :
    ((body.get "status").truthy = false →
      Route.patchStatus env st id body
        = (st, ⟨400, .obj [("error", .str "Status is required")]⟩)) ∧
    ((body.get "status").truthy = true → Order.findById st (.str id) = none →
      Route.patchStatus env st id body
        = (st, ⟨404, .obj [("error", .str "Order not found")]⟩)) ∧
    ((body.get "status").truthy = true → ∀ old, Order.findById st (.str id) = some old →
      ∃ o, (Order.updateStatus env st (.str id) (body.get "status")).2 = some o ∧
        Route.patchStatus env st id body
          = ((Order.updateStatus env st (.str id) (body.get "status")).1, ⟨200, .obj o⟩) ∧
        o.get "status" = body.get "status") := by
  refine ⟨?_, ?_, ?_⟩
  · intro h
    simp [Route.patchStatus, h]
  · intro h hnone
    simp [Route.patchStatus, h, hnone, JSValue.ofResult, JSValue.truthy_undefined]
  · intro h old hold
    obtain ⟨i, hi, hget⟩ := find?_findIdx? _ st.orders old hold
    have hupd := Order.updateStatus_found env st (.str id) (body.get "status") old i hi hget
    refine ⟨_, congrArg Prod.snd hupd, ?_, ?_⟩
    · simp [Route.patchStatus, h, hold, hupd, JSValue.ofResult, JSValue.truthy_obj]
    · rw [Obj.get_set, if_neg (by decide), Obj.get_set, if_pos rfl]

/-- C20. The validation of `POST /api/orders` tests truthiness, not presence: a body
in which `userId` (here 0), a non-empty `items` array and `totalAmount` are all
present is answered 400 and creates no order when `userId` is 0. The handler answers
201 exactly when `userId` and `totalAmount` are truthy and `items` is a non-empty
array, and then with the order `Order.create` returns; in every other case it
answers 400 and leaves the state as it was. -/
theorem postOrder_truthiness (env : Env) (st : State) (body : Obj) :
    ("userId" ∈ zeroUserBody.keys ∧ "totalAmount" ∈ zeroUserBody.keys ∧
      (∃ x xs, zeroUserBody.get "items" = .arr (x :: xs)) ∧
      (Route.postOrder env st zeroUserBody).2.status = 400 ∧
      (Route.postOrder env st zeroUserBody).1 = st) ∧
    ((Route.postOrder env st body).2.status = 201 ↔
      ((body.get "userId").truthy = true ∧ (body.get "totalAmount").truthy = true ∧
        ∃ x xs, body.get "items" = .arr (x :: xs))) ∧
    ((Route.postOrder env st body).2.status = 201 →
      Route.postOrder env st body = ((Order.create env st (Route.createArgs body)).1,
        ⟨201, .obj (Order.create env st (Route.createArgs body)).2⟩)) ∧
    ((Route.postOrder env st body).2.status ≠ 201 →
      (Route.postOrder env st body).2.status = 400 ∧ (Route.postOrder env st body).1 = st) := by
  refine ⟨⟨by decide, by decide, ⟨_, _, rfl⟩, rfl, rfl⟩, ?_⟩
  by_cases hc : (!(body.get "userId").truthy || !(body.get "items").truthy
      || !(body.get "items").isArray || (body.get "items").arrayLength == 0
      || !(body.get "totalAmount").truthy) = true
  · have hpost : Route.postOrder env st body = (st, ⟨400, .obj [("error",
        .str "Missing required fields: userId, items (array), totalAmount")]⟩) := by
      simp only [Route.postOrder, hc, if_true]
    rw [hpost]
    have hne : ¬ ((400 : Nat) = 201) := by decide
    refine ⟨⟨fun h => absurd h hne, ?_⟩, fun h => absurd h hne, fun _ => ⟨rfl, rfl⟩⟩
    rintro ⟨hu, ht, x, xs, hit⟩
    have harr : (JSValue.arr (x :: xs)).truthy = true := rfl
    simp [hu, ht, hit, harr, JSValue.isArray, JSValue.arrayLength] at hc
  · have hpost : Route.postOrder env st body = ((Order.create env st (Route.createArgs body)).1,
        ⟨201, .obj (Order.create env st (Route.createArgs body)).2⟩) := by
      simp only [Route.postOrder, hc]
      rfl
    rw [hpost]
    refine ⟨⟨fun _ => ?_, fun _ => rfl⟩, fun _ => rfl, fun h => absurd rfl h⟩
    simp only [Bool.or_eq_true, Bool.not_eq_true', beq_iff_eq, not_or, Bool.not_eq_false] at hc
    obtain ⟨⟨⟨⟨hu, -⟩, harr⟩, hlen⟩, ht⟩ := hc
    refine ⟨hu, ht, ?_⟩
    cases hit : body.get "items" with
    | arr xs =>
      cases xs with
      | nil => simp [hit, JSValue.arrayLength] at hlen
      | cons x xs => exact ⟨x, xs, rfl⟩
    | _ => simp [hit, JSValue.isArray] at harr

/-! ## What the reads and the mutations leave in place -/

/-- C18. `Order.findAll()` sorts the collection in place: the collection after the
call is the returned list, a permutation of the collection before it, and the rest
of the module state is as before; there is a store whose order the call changes.
`Order.findById` and `Order.findByUserId` leave the state exactly as it was. -/
theorem findAll_sorts_in_place (env : Env) (st : State) (id userId : JSValue) :
    (Order.findAll env st).1.orders = (Order.findAll env st).2 ∧
    (Order.findAll env st).2.Perm st.orders ∧
    (Order.findAll env st).1.uuids = st.uuids ∧
    (Order.findAll env st).1.ticks = st.ticks ∧
    (Order.findAll refEnv twoOrders).1.orders ≠ twoOrders.orders ∧
    step env st (.findById id) = st ∧
    step env st (.findByUserId userId) = st := by
  refine ⟨rfl, arraySort_perm _ _, rfl, rfl, ?_, rfl, rfl⟩
  intro e
  have e' := congrArg (fun l => l.map (fun o => Obj.get o "createdAt")) e
  have e'' : [JSValue.str "2024-01-01T00:00:00.002Z", JSValue.str "2024-01-01T00:00:00.000Z"]
      = [JSValue.str "2024-01-01T00:00:00.000Z", JSValue.str "2024-01-01T00:00:00.002Z"] := e'
  have h := JSValue.str.inj (List.cons.inj e'').1
  exact absurd h (by decide)

/-- C19. `Order.update`, `Order.updateStatus` and `Order.delete` touch only the first
stored order whose id equals the given id. When no order has the id the collection
is left as it was. Otherwise, at the first index `i` whose order has the id:
`update` and `updateStatus` keep the length and every order at another index;
`delete` returns `true`, shortens the collection by exactly one, keeps the orders
before `i` in place and moves those after `i` one place down. -/
theorem mutations_touch_first_match (env : Env) (st : State) (id : JSValue) (p : Obj)
    (s : JSValue) :
    (Order.findIndex st id = none →
      (Order.update env st id p).1.orders = st.orders ∧
      (Order.updateStatus env st id s).1.orders = st.orders ∧
      (Order.delete st id).1.orders = st.orders) ∧
    ∀ i, Order.findIndex st id = some i →
      ((∃ o, st.orders[i]? = some o ∧ (o.get "id").strictEq id = true) ∧
        ∀ j o, j < i → st.orders[j]? = some o → (o.get "id").strictEq id = false) ∧
      ((Order.update env st id p).1.orders.length = st.orders.length ∧
        ∀ j, j ≠ i → (Order.update env st id p).1.orders[j]? = st.orders[j]?) ∧
      ((Order.updateStatus env st id s).1.orders.length = st.orders.length ∧
        ∀ j, j ≠ i → (Order.updateStatus env st id s).1.orders[j]? = st.orders[j]?) ∧
      ((Order.delete st id).2 = true ∧
        (Order.delete st id).1.orders.length + 1 = st.orders.length ∧
        (∀ j, j < i → (Order.delete st id).1.orders[j]? = st.orders[j]?) ∧
        ∀ j, i ≤ j → (Order.delete st id).1.orders[j]? = st.orders[j + 1]?) := by
  constructor
  · intro hnone
    simp only [Order.update, Order.updateStatus, Order.delete, hnone, and_self]
  · intro i hidx
    obtain ⟨old, hold⟩ := Order.findIndex_some st id i hidx
    have hlt : i < st.orders.length := (List.getElem?_eq_some_iff.mp hold).1
    refine ⟨Order.findIndex_first st id i hidx, ?_, ?_, ?_⟩
    · rw [Order.update_found env st id p old i hidx hold]
      refine ⟨List.length_set _ _ _, ?_⟩
      intro j hj
      exact List.getElem?_set_ne (Ne.symm hj)
    · rw [Order.updateStatus_found env st id s old i hidx hold]
      refine ⟨List.length_set _ _ _, ?_⟩
      intro j hj
      exact List.getElem?_set_ne (Ne.symm hj)
    · rw [Order.delete_found st id i hidx]
      refine ⟨rfl, ?_, ?_, ?_⟩
      · show (st.orders.eraseIdx i).length + 1 = st.orders.length
        rw [List.length_eraseIdx_of_lt hlt]
        omega
      · intro j hj
        show (st.orders.eraseIdx i)[j]? = st.orders[j]?
        rw [List.getElem?_eraseIdx, if_pos hj]
      · intro j hj
        show (st.orders.eraseIdx i)[j]? = st.orders[j + 1]?
        rw [List.getElem?_eraseIdx, if_neg (Nat.not_lt.mpr hj)]

theorem mutations_touch_first_match_witness :
    (Order.update refEnv twoOrders (.str "order-1") statusPatch).1.orders.length
      = twoOrders.orders.length ∧
    (∀ j, j ≠ 1 → (Order.update refEnv twoOrders (.str "order-1") statusPatch).1.orders[j]?
      = twoOrders.orders[j]?) ∧
    (Order.delete twoOrders (.str "order-1")).1.orders.length + 1 = twoOrders.orders.length :=
  have h := (mutations_touch_first_match refEnv twoOrders (.str "order-1") statusPatch
    (.str "shipped")).2 1 rfl
  ⟨h.2.1.1, h.2.1.2, h.2.2.2.2.1⟩
